import Mathlib

/-!
Shallow embedding of the Shithead card-game engine (`src/game.js`) and a
verification of the specification claims against it.

Modelling conventions:
* JavaScript arrays become Lean `List`s kept in the same element order as the
  source; `Array.prototype.pop` (used by `Deck.draw` and the blind face-down
  draw) removes the *last* element, hence `List.getLast?` / `List.dropLast`.
* Machine numbers in the source are small non-negative integers (ranks,
  indices, counts); they are modelled as `Nat`.
* `Math.random`-driven shuffling is modelled by passing the post-shuffle deck
  order as an explicit parameter; theorems about constructed games assume it
  is a permutation of the 52-card standard deck, which is exactly what the
  Fisher-Yates shuffle produces.
* Reference identity (`===`) on card objects is modelled by structural
  equality on `Card`.  Inside a constructed game this is faithful because the
  deck holds 52 pairwise distinct (rank, suit) values and the engine never
  creates new cards.
* The `while` loops of `advancePlayer` and `replenishHand` are modelled with
  explicit fuel.  `replenishHand` adds one card per iteration while the hand
  has fewer than three cards, so three iterations always suffice and the fuel
  is fixed at 3.  `advancePlayer` genuinely diverges when every player is
  finished, so its fuel is a parameter: a `none` result means the loop did
  not terminate within the provided fuel (and, as proved below, never will
  in the all-finished case).
* Thrown `Error`s become `Except.error` values; an error result carries no
  successor state, mirroring that the source throws before mutating anything.
-/

/-- Suit of a card (`game.js` Card constructor, the four suit strings). -/
inductive Suit
  | hearts
  | diamonds
  | clubs
  | spades
deriving DecidableEq, Repr

/-- A playing card (`game.js` class `Card`): rank 2..14 plus a suit. -/
structure Card where
  rank : Nat
  suit : Suit
deriving DecidableEq, Repr

/-- A player (`game.js` class `Player`): id, the three zones, finished flag. -/
structure Player where
  id : Nat
  hand : List Card
  faceUp : List Card
  faceDown : List Card
  finished : Bool
deriving DecidableEq, Repr

instance : Inhabited Player := ⟨⟨0, [], [], [], false⟩⟩

/-- Translation of `Player.hasCards` (`game.js` lines 117-123). -/
def Player.hasCards (p : Player) : Bool :=
  decide (p.hand.length > 0) || decide (p.faceUp.length > 0) ||
    decide (p.faceDown.length > 0)

/-- All cards a player holds, in zone order hand, faceUp, faceDown. -/
def Player.cards (p : Player) : List Card :=
  p.hand ++ p.faceUp ++ p.faceDown

/-- The full game state (`game.js` class `Game`).  `deck` is the remaining
stock in JavaScript array order (draws take the last element); `direction`
and `skipCount` are dead fields of the source kept for fidelity. -/
structure Game where
  players : List Player
  deck : List Card
  discard : List Card
  pile : List Card
  currentPlayer : Nat
  direction : Int
  skipCount : Nat
deriving DecidableEq, Repr

/-- Translation of `Game.topEffectiveCard` (`game.js` lines 218-226): scan the pile from the
most recently played card backward and return the first card whose rank is
not 8; `none` when the pile is empty or all 8s. -/
def Game.topEffectiveCard (g : Game) : Option Card :=
  g.pile.reverse.find? (fun c => decide (c.rank ≠ 8))

/-- Translation of `Game.isPlayable` (`game.js` lines 234-250). -/
def Game.isPlayable (g : Game) (card : Card) : Bool :=
  let top := g.topEffectiveCard
  if card.rank = 10 then true
  else if card.rank = 2 then true
  else if card.rank = 8 then true
  else
    match top with
    | none => true
    | some t => if t.rank = 7 then decide (card.rank ≤ 7) else decide (t.rank ≤ card.rank)

/-- The four-of-a-kind test of `Game.checkFourOfAKindBurn` (`game.js` lines
258-265): the pile has at least four cards and the four most recently
played cards all have the rank of the last card. -/
def fourKindTriggers (pile : List Card) : Bool :=
  match pile.reverse with
  | c1 :: c2 :: c3 :: c4 :: _ =>
      decide (c2.rank = c1.rank) && decide (c3.rank = c1.rank) && decide (c4.rank = c1.rank)
  | _ => false

/-- Remove the first occurrence of a card from a list (the
`findIndex` + `splice(idx, 1)` pattern of `removeCardsFromPlayer`). -/
def eraseCard : List Card → Card → List Card
  | [], _ => []
  | x :: xs, c => if x = c then xs else x :: eraseCard xs c

/-- One iteration of the loop in `Game.removeCardsFromPlayer` (`game.js`
lines 371-389): try the hand first, then faceUp, then faceDown. -/
def removeCardFromPlayer (p : Player) (c : Card) : Player :=
  if c ∈ p.hand then { p with hand := eraseCard p.hand c }
  else if c ∈ p.faceUp then { p with faceUp := eraseCard p.faceUp c }
  else if c ∈ p.faceDown then { p with faceDown := eraseCard p.faceDown c }
  else p

/-- Translation of `Game.removeCardsFromPlayer` (`game.js` lines 371-389). -/
def removeCardsFromPlayer (p : Player) (cards : List Card) : Player :=
  cards.foldl removeCardFromPlayer p

/-- The loop body of `Game.replenishHand` (`game.js` lines 398-403):
`while (hand.length < 3 && deck.length > 0) hand.push(deck.pop())`.
The loop adds a card per iteration while the hand has fewer than three
cards, so it runs at most three times; `fuel` is therefore fixed at 3 by
`replenish`. -/
def replenishAux : Nat → List Card → List Card → List Card × List Card
  | 0, hand, deck => (hand, deck)
  | fuel + 1, hand, deck =>
      if hand.length < 3 then
        match deck.getLast? with
        | some c => replenishAux fuel (hand ++ [c]) deck.dropLast
        | none => (hand, deck)
      else (hand, deck)

/-- Translation of `Game.replenishHand` as a function of the hand and the deck. -/
def replenish (hand deck : List Card) : List Card × List Card :=
  replenishAux 3 hand deck

/-- The loop of `Game.advancePlayer` (`game.js` lines 411-422), with fuel:
step to `(idx + 1) % total`, decrement the remaining step count only when
that position holds a non-finished player, stop when the count is zero.
`none` means the loop did not finish within `fuel` iterations. -/
def advanceIdx (ps : List Player) : Nat → Nat → Nat → Option Nat
  | idx, 0, _ => some idx
  | _, _ + 1, 0 => none
  | idx, n + 1, fuel + 1 =>
      let idx' := (idx + 1) % ps.length
      if (ps.getD idx' default).finished then advanceIdx ps idx' (n + 1) fuel
      else advanceIdx ps idx' n fuel

/-- Translation of `Game.advancePlayer` (`game.js` lines 411-422). -/
def Game.advancePlayer (g : Game) (n fuel : Nat) : Option Game :=
  (advanceIdx g.players g.currentPlayer n fuel).map
    (fun idx => { g with currentPlayer := idx })

/-- Error taxonomy of the two `throw new Error` sites of `playTurn`
(`game.js` lines 300 and 306), plus the implicit JavaScript `TypeError`
raised when the player argument does not denote a player of the game. -/
inductive TurnError
  | notSameRank
  | notPlayable (c : Card)
  | badPlayer
deriving DecidableEq, Repr

/-- Abstraction of the result message built at `game.js` line 363: which
path was taken, and for a play the `burn`, `skip` and `extraTurn` flags the
message reports. -/
inductive TurnResult
  | alreadyFinished
  | pickedUp
  | played (burn : Bool) (skip : Nat) (extraTurn : Bool)
deriving DecidableEq, Repr

/-- The `extraTurn` flag carried by a result (false for non-play results). -/
def TurnResult.extraOf : TurnResult → Bool
  | .played _ _ e => e
  | _ => false

/-- The `skip` count carried by a result (zero for non-play results). -/
def TurnResult.skipOf : TurnResult → Nat
  | .played _ s _ => s
  | _ => 0

/-- Output of the card-power section of `playTurn` (`game.js` lines 313-335):
the updated discard and pile together with the `burn`, `skip` and
`extraTurn` local variables. -/
structure PowerOut where
  discard : List Card
  pile : List Card
  burn : Bool
  skip : Nat
  extraTurn : Bool
deriving DecidableEq, Repr

/-- The rank-power dispatch of `playTurn` (`game.js` lines 317-330):
10 burns the pile and grants an extra turn, 2 grants an extra turn without
touching the pile, 5 sets the skip count to the number of cards played. -/
def applyPowers (discard pile : List Card) (rank count : Nat) : PowerOut :=
  if rank = 10 then
    { discard := discard ++ pile, pile := [], burn := true, skip := 0, extraTurn := true }
  else if rank = 2 then
    { discard := discard, pile := pile, burn := false, skip := 0, extraTurn := true }
  else if rank = 5 then
    { discard := discard, pile := pile, burn := false, skip := count, extraTurn := false }
  else
    { discard := discard, pile := pile, burn := false, skip := 0, extraTurn := false }

/-- The `if (!burn && this.checkFourOfAKindBurn())` step of `playTurn`
(`game.js` lines 331-335). -/
def applyFourKind (po : PowerOut) : PowerOut :=
  if po.burn = false ∧ fourKindTriggers po.pile = true then
    { po with discard := po.discard ++ po.pile, pile := [], burn := true, extraTurn := true }
  else po

/-- First zone-progression step of `playTurn` (`game.js` lines 339-343): if
the hand is empty and faceUp is not, move all faceUp cards into the hand. -/
def progressZones1 (p : Player) : Player :=
  if p.hand.length = 0 ∧ p.faceUp.length > 0 then
    { p with hand := p.hand ++ p.faceUp, faceUp := [] }
  else p

/-- Second zone-progression step of `playTurn` (`game.js` lines 344-348): if
hand and faceUp are both empty and faceDown is not, pop one blind card from
faceDown into the hand. -/
def progressZones2 (p : Player) : Player :=
  if p.hand.length = 0 ∧ p.faceUp.length = 0 ∧ p.faceDown.length > 0 then
    match p.faceDown.getLast? with
    | some blind => { p with hand := p.hand ++ [blind], faceDown := p.faceDown.dropLast }
    | none => p
  else p

/-- Zone progression of `playTurn` (`game.js` lines 339-348). -/
def progressZones (p : Player) : Player :=
  progressZones2 (progressZones1 p)

/-- Result of resolving a validated play: the game before the final advance,
the updated acting player, and the result flags. -/
structure ResolveOut where
  game : Game
  actor : Player
  result : TurnResult
deriving DecidableEq, Repr

/-- Lines 350-352 of `playTurn`: if the player has no cards anywhere, set
the finished flag. -/
def markFinished (p : Player) : Player :=
  if p.hasCards = false then { p with finished := true } else p

/-- The player-local part of lines 309-352 of `playTurn`: remove the played
cards, replenish the hand from the deck, progress the zones, and set the
finished flag when the player has no cards left anywhere. -/
def resolvePlayActor (player : Player) (playCards deck : List Card) : Player :=
  markFinished (progressZones
    { removeCardsFromPlayer player playCards with
      hand := (replenish (removeCardsFromPlayer player playCards).hand deck).1 })

/-- Lines 309-352 of `playTurn`: remove the played cards from the player,
append them to the pile, apply rank powers and the four-of-a-kind burn,
replenish the hand from the deck, progress the zones, and set the finished
flag when the player has no cards left.  The final advance of
`currentPlayer` is performed by `Game.playTurn`. -/
def Game.resolvePlay (g : Game) (pIdx : Nat) (player : Player)
    (playCards : List Card) (rank : Nat) : ResolveOut :=
  let po := applyFourKind (applyPowers g.discard (g.pile ++ playCards) rank playCards.length)
  { game :=
      { g with
        players := g.players.set pIdx (resolvePlayActor player playCards g.deck)
        deck := (replenish (removeCardsFromPlayer player playCards).hand g.deck).2
        discard := po.discard
        pile := po.pile },
    actor := resolvePlayActor player playCards g.deck,
    result := .played po.burn po.skip po.extraTurn }

/-- Translation of `Game.playTurn` (`game.js` lines 284-364).  The acting player is
addressed by index into `g.players` (the source passes the player object by
reference).  `fuel` bounds the `advancePlayer` loop; an `.ok none` result
means that loop did not terminate within `fuel` iterations. -/
def Game.playTurn (g : Game) (pIdx : Nat) (playCards : List Card) (fuel : Nat) :
    Except TurnError (Option (Game × TurnResult)) :=
  match g.players[pIdx]? with
  | none => .error .badPlayer
  | some player =>
    if player.hasCards = false then .ok (some (g, .alreadyFinished))
    else
      match playCards with
      | [] =>
        let player1 := { player with hand := player.hand ++ g.pile }
        let g1 := { g with players := g.players.set pIdx player1, pile := [] }
        match advanceIdx g1.players g1.currentPlayer 1 fuel with
        | none => .ok none
        | some idx => .ok (some ({ g1 with currentPlayer := idx }, .pickedUp))
      | c0 :: _ =>
        let rank := c0.rank
        if ¬ (∀ c ∈ playCards, c.rank = rank) then .error .notSameRank
        else
          match playCards.find? (fun c => g.isPlayable c = false) with
          | some c => .error (.notPlayable c)
          | none =>
            let ro := g.resolvePlay pIdx player playCards rank
            if ro.actor.finished then
              match advanceIdx ro.game.players g.currentPlayer 1 fuel with
              | none => .ok none
              | some idx => .ok (some ({ ro.game with currentPlayer := idx }, ro.result))
            else if ro.result.extraOf then .ok (some (ro.game, ro.result))
            else
              match advanceIdx ro.game.players g.currentPlayer (1 + ro.result.skipOf) fuel with
              | none => .ok none
              | some idx => .ok (some ({ ro.game with currentPlayer := idx }, ro.result))

/-- The 52-card deck in construction order (`game.js` lines 70-83): for each
suit in order hearts, diamonds, clubs, spades, the ranks 3..14 and then 2. -/
def standardRanks : List Nat := [3, 4, 5, 6, 7, 8, 9, 10, 11, 12, 13, 14, 2]

/-- The suit enumeration order of the `Deck` constructor. -/
def standardSuits : List Suit := [.hearts, .diamonds, .clubs, .spades]

/-- The 52 cards pushed by the `Deck` constructor, before shuffling. -/
def standardDeckCards : List Card :=
  standardSuits.foldr (fun s acc => standardRanks.map (fun r => Card.mk r s) ++ acc) []

/-- The argument of the `Game` constructor.  The source declares
`constructor(numPlayers = 2)` and its own callers (`cli.js`, `server.js`)
pass an array of player names instead; under JavaScript semantics an array
argument makes both the `numPlayers < 2` comparison and the loop bound
comparison `i < numPlayers` false (NaN comparisons), so no error is raised
and no player is created.  Both call shapes are modelled. -/
inductive CtorArg
  | num (n : Nat)
  | idList (ids : List String)
deriving DecidableEq, Repr

/-- Translation of the `ConstructionError` guard error (`game.js` line 133). -/
inductive CtorError
  | atLeastTwoPlayers
deriving DecidableEq, Repr

/-- Whether `numPlayers < 2` evaluates to true in the constructor guard:
for an array argument the comparison is `NaN < 2`, which is false. -/
def ctorRejects : CtorArg → Bool
  | .num n => decide (n < 2)
  | .idList _ => false

/-- The player-creation loop of the constructor (`game.js` lines 134-137):
`for (i = 0; i < numPlayers; i++) players.push(new Player(i))`.  With an
array argument the bound comparison is `0 < NaN`, false, so the loop body
never runs. -/
def mkPlayers : CtorArg → List Player
  | .num n => (List.range n).map (fun i => { id := i, hand := [], faceUp := [], faceDown := [], finished := false })
  | .idList _ => []

/-- Push a drawn card onto a player's faceDown zone. -/
def pushFaceDown (p : Player) (c : Card) : Player :=
  { p with faceDown := p.faceDown ++ [c] }

/-- Push a drawn card onto a player's faceUp zone. -/
def pushFaceUp (p : Player) (c : Card) : Player :=
  { p with faceUp := p.faceUp ++ [c] }

/-- Push a drawn card into a player's hand. -/
def pushHand (p : Player) (c : Card) : Player :=
  { p with hand := p.hand ++ [c] }

/-- One dealing pass of `initDeal` (`game.js` lines 157-176): each player in
order draws one card from the top (end) of the deck; a null draw (empty
deck) deals nothing to that player. -/
def dealPass (push : Player → Card → Player) :
    List Player → List Card → List Player × List Card
  | [], deck => ([], deck)
  | p :: ps, deck =>
    match deck.getLast? with
    | none =>
      let r := dealPass push ps deck.dropLast
      (p :: r.1, r.2)
    | some c =>
      let r := dealPass push ps deck.dropLast
      (push p c :: r.1, r.2)

/-- Iterated round-robin dealing passes (the `for (let i = 0; i < 3; i++)` loops
of `initDeal`). -/
def dealRounds (push : Player → Card → Player) :
    Nat → List Player → List Card → List Player × List Card
  | 0, ps, deck => (ps, deck)
  | k + 1, ps, deck =>
    let r := dealPass push ps deck
    dealRounds push k r.1 r.2

/-- Ascending sort by rank (`hand.sort((a, b) => a.rank - b.rank)` at
`game.js` lines 181-183); insertion sort is stable, matching the stable
engine sort of the source. -/
def sortByRank (l : List Card) : List Card :=
  l.insertionSort (fun a b => a.rank ≤ b.rank)

/-- The positional swap loop of `initDeal` (`game.js` lines 185-192): at
each index where both a hand card and a faceUp card exist, swap them when
the hand card has the larger rank. -/
def swapAdjust : List Card → List Card → List Card × List Card
  | [], us => ([], us)
  | hs, [] => (hs, [])
  | h :: hs, u :: us =>
    let r := swapAdjust hs us
    if u.rank < h.rank then (u :: r.1, h :: r.2) else (h :: r.1, u :: r.2)

/-- The automated pre-play exchange of `initDeal` (`game.js` lines 179-193)
for one player: sort the hand and the faceUp zone ascending by rank, then
swap positionally when the hand card outranks the faceUp card. -/
def adjustPlayer (p : Player) : Player :=
  let hand := sortByRank p.hand
  let faceUp := sortByRank p.faceUp
  let r := swapAdjust hand faceUp
  { p with hand := r.1, faceUp := r.2 }

/-- The starting-player scan of `initDeal` (`game.js` lines 197-207) over
one hand, folding the running (lowest value, starting player) pair; rank 2
counts as value 1 and `none` stands for the initial `Infinity`. -/
def scanHand (pid : Nat) (hand : List Card) (acc : Option Nat × Nat) :
    Option Nat × Nat :=
  hand.foldl
    (fun acc2 c =>
      let v := if c.rank = 2 then 1 else c.rank
      match acc2.1 with
      | none => (some v, pid)
      | some lo => if v < lo then (some v, pid) else acc2)
    acc

/-- The full starting-player scan over all players (`game.js` lines
197-208). -/
def startScan (ps : List Player) : Nat :=
  (ps.foldl (fun acc p => scanHand p.id p.hand acc) ((none : Option Nat), 0)).2

/-- Translation of `Game.initDeal` (`game.js` lines 155-209): three face-down rounds, three
face-up rounds, three hand rounds, the automated exchange, and the
starting-player scan. -/
def Game.initDeal (g : Game) : Game :=
  let r1 := dealRounds pushFaceDown 3 g.players g.deck
  let r2 := dealRounds pushFaceUp 3 r1.1 r1.2
  let r3 := dealRounds pushHand 3 r2.1 r2.2
  let ps := r3.1.map adjustPlayer
  { g with players := ps, deck := r3.2, currentPlayer := startScan ps }

/-- The `Game` constructor (`game.js` lines 132-145).  `shuffled` is the
deck order produced by the Fisher-Yates shuffle of the `Deck` constructor;
theorems assume it is a permutation of `standardDeckCards`. -/
def mkGame (arg : CtorArg) (shuffled : List Card) : Except CtorError Game :=
  if ctorRejects arg then .error .atLeastTwoPlayers
  else
    .ok (Game.initDeal
      { players := mkPlayers arg, deck := shuffled, discard := [], pile := [],
        currentPlayer := 0, direction := 1, skipCount := 0 })

/-- All card occurrences in all players' zones, in player order. -/
def playersCards (ps : List Player) : List Card :=
  ps.foldr (fun p acc => p.cards ++ acc) []

/-- Every card occurrence in the game: stock, discard, pile and all player
zones.  Conservation claims are about this list up to permutation. -/
def Game.allCards (g : Game) : List Card :=
  g.deck ++ g.discard ++ g.pile ++ playersCards g.players

/-- A submission drawn from the acting player's own zones: each card occurs
in the submission at most as often as the player holds it.  This is the
caller contract under which `playTurn` is used by the repository's own
callers (they submit cards taken from the player's zones). -/
def OwnedSubmission (player : Player) (cards : List Card) : Prop :=
  ∀ c : Card, cards.count c ≤ player.cards.count c

/-- The advance relation described by the specification: from `idx`, step
forward one position at a time, wrapping circularly; count a step only when
it lands on a non-finished player; `Landings ps idx n res` holds when `res`
is the position reached after exactly `n` such landings. -/
inductive Landings (ps : List Player) : Nat → Nat → Nat → Prop
  | done (idx : Nat) : Landings ps idx 0 idx
  | pass {idx n res : Nat} :
      (ps.getD ((idx + 1) % ps.length) default).finished = true →
      Landings ps ((idx + 1) % ps.length) (n + 1) res → Landings ps idx (n + 1) res
  | land {idx n res : Nat} :
      (ps.getD ((idx + 1) % ps.length) default).finished = false →
      Landings ps ((idx + 1) % ps.length) n res → Landings ps idx (n + 1) res

/-- States reachable from `g0` by the public operations: `advancePlayer`
calls and `playTurn` calls whose submission is drawn from the acting
player's own zones.  Failed validations and diverging advances produce no
successor state. -/
inductive Reach (g0 : Game) : Game → Prop
  | refl : Reach g0 g0
  | advance {g g' : Game} {n fuel : Nat} :
      Reach g0 g → g.advancePlayer n fuel = some g' → Reach g0 g'
  | turn {g g' : Game} {pIdx : Nat} {player : Player} {cards : List Card}
      {fuel : Nat} {r : TurnResult} :
      Reach g0 g → g.players[pIdx]? = some player → OwnedSubmission player cards →
      g.playTurn pIdx cards fuel = .ok (some (g', r)) → Reach g0 g'

/-! ### Basic lemmas about the list helpers -/

theorem eraseCard_of_not_mem {l : List Card} {c : Card} (h : c ∉ l) :
    eraseCard l c = l := by
  induction l with
  | nil => rfl
  | cons x xs ih =>
    simp only [List.mem_cons, not_or] at h
    simp only [eraseCard, if_neg (Ne.symm h.1)]
    rw [ih h.2]

theorem perm_eraseCard {l : List Card} {c : Card} (h : c ∈ l) :
    l.Perm (c :: eraseCard l c) := by
  induction l with
  | nil => cases h
  | cons x xs ih =>
    by_cases hx : x = c
    · subst hx
      simp [eraseCard]
    · have hc : c ∈ xs := by
        rcases List.mem_cons.mp h with h' | h'
        · exact absurd h'.symm hx
        · exact h'
      simp only [eraseCard, if_neg hx]
      exact ((ih hc).cons x).trans (List.Perm.swap c x _)

theorem eraseCard_sublist (l : List Card) (c : Card) :
    (eraseCard l c).Sublist l := by
  induction l with
  | nil => simp [eraseCard]
  | cons x xs ih =>
    simp only [eraseCard]
    split
    · exact List.sublist_cons_self x xs
    · exact ih.cons₂ x

theorem eraseCard_eq_filter_of_nodup {l : List Card} (hl : l.Nodup) (c : Card) :
    eraseCard l c = l.filter (fun x => decide (x ≠ c)) := by
  induction l with
  | nil => rfl
  | cons x xs ih =>
    rcases List.nodup_cons.mp hl with ⟨hx, hxs⟩
    by_cases hxc : x = c
    · subst hxc
      have hfe : List.filter (fun y => decide (y ≠ x)) xs = xs :=
        List.filter_eq_self.mpr (fun y hy => by
          simp only [ne_eq, decide_eq_true_eq]
          exact fun hyx => hx (hyx ▸ hy))
      simp only [ne_eq, decide_not] at hfe
      simp [eraseCard, hfe]
    · simp [eraseCard, hxc, ih hxs, Ne.symm hxc]

/-! ### Lemmas about card removal from a player -/

theorem removeCardFromPlayer_id (p : Player) (c : Card) :
    (removeCardFromPlayer p c).id = p.id := by
  unfold removeCardFromPlayer
  split
  · rfl
  · split
    · rfl
    · split <;> rfl

theorem removeCardFromPlayer_finished (p : Player) (c : Card) :
    (removeCardFromPlayer p c).finished = p.finished := by
  unfold removeCardFromPlayer
  split
  · rfl
  · split
    · rfl
    · split <;> rfl

theorem removeCardFromPlayer_of_not_mem {p : Player} {c : Card}
    (h : c ∉ p.cards) : removeCardFromPlayer p c = p := by
  simp only [Player.cards, List.append_assoc, List.mem_append, not_or] at h
  unfold removeCardFromPlayer
  rw [if_neg h.1, if_neg h.2.1, if_neg h.2.2]

theorem perm_removeCardFromPlayer {p : Player} {c : Card} (h : c ∈ p.cards) :
    p.cards.Perm (c :: (removeCardFromPlayer p c).cards) := by
  by_cases h1 : c ∈ p.hand
  · simp only [removeCardFromPlayer, if_pos h1, Player.cards, List.append_assoc]
    exact (perm_eraseCard h1).append_right _
  · by_cases h2 : c ∈ p.faceUp
    · simp only [removeCardFromPlayer, if_neg h1, if_pos h2, Player.cards, List.append_assoc]
      exact (((perm_eraseCard h2).append_right p.faceDown).append_left p.hand).trans
        List.perm_middle
    · have h3 : c ∈ p.faceDown := by
        simp only [Player.cards, List.append_assoc, List.mem_append] at h
        tauto
      simp only [removeCardFromPlayer, if_neg h1, if_neg h2, if_pos h3, Player.cards,
        List.append_assoc]
      refine (((perm_eraseCard h3).append_left p.faceUp).append_left p.hand).trans ?_
      have hmid := @List.perm_middle _ c (p.hand ++ p.faceUp) (eraseCard p.faceDown c)
      simpa using hmid

theorem removeCardsFromPlayer_id (p : Player) (cards : List Card) :
    (removeCardsFromPlayer p cards).id = p.id := by
  induction cards generalizing p with
  | nil => rfl
  | cons c cs ih =>
    simp only [removeCardsFromPlayer, List.foldl_cons] at ih ⊢
    rw [ih, removeCardFromPlayer_id]

theorem removeCardsFromPlayer_finished (p : Player) (cards : List Card) :
    (removeCardsFromPlayer p cards).finished = p.finished := by
  induction cards generalizing p with
  | nil => rfl
  | cons c cs ih =>
    simp only [removeCardsFromPlayer, List.foldl_cons] at ih ⊢
    rw [ih, removeCardFromPlayer_finished]

theorem count_removeCardsFromPlayer (p : Player) (cards : List Card)
    (h : OwnedSubmission p cards) (x : Card) :
    ((removeCardsFromPlayer p cards).cards.count x + cards.count x : Nat)
      = p.cards.count x := by
  induction cards generalizing p with
  | nil => simp [removeCardsFromPlayer]
  | cons c cs ih =>
    have hc : c ∈ p.cards := by
      have := h c
      simp only [List.count_cons_self] at this
      exact List.count_pos_iff.mp (by omega)
    have hperm := perm_removeCardFromPlayer hc
    have hstep : removeCardsFromPlayer p (c :: cs)
        = removeCardsFromPlayer (removeCardFromPlayer p c) cs := rfl
    have hown : OwnedSubmission (removeCardFromPlayer p c) cs := by
      intro y
      have h1 := h y
      have h2 := hperm.count_eq y
      rw [List.count_cons] at h1 h2
      by_cases hyc : y = c <;> simp [hyc] at h1 h2 ⊢ <;> omega
    have hres := ih (removeCardFromPlayer p c) hown
    have hcnt := hperm.count_eq x
    rw [hstep]
    by_cases hxc : x = c
    · subst hxc
      simp only [List.count_cons_self] at hcnt ⊢
      omega
    · rw [List.count_cons_of_ne hxc] at hcnt ⊢
      omega

theorem getLast?_decomp {α : Type} {l : List α} {c : α} (h : l.getLast? = some c) :
    l = l.dropLast ++ [c] := by
  rcases List.getLast?_eq_some_iff.mp h with ⟨ys, rfl⟩
  rw [List.dropLast_concat]

theorem count_replenishAux (fuel : Nat) (hand deck : List Card) (x : Card) :
    ((replenishAux fuel hand deck).1.count x + (replenishAux fuel hand deck).2.count x : Nat)
      = hand.count x + deck.count x := by
  induction fuel generalizing hand deck with
  | zero => simp [replenishAux]
  | succ fuel ih =>
    simp only [replenishAux]
    split
    · cases hlast : deck.getLast? with
      | none => simp
      | some c =>
        have hdeck := getLast?_decomp hlast
        have := ih (hand ++ [c]) deck.dropLast
        simp only [List.count_append] at this ⊢
        conv_rhs => rw [hdeck]
        simp only [List.count_append]
        omega
    · simp

theorem count_replenish (hand deck : List Card) (x : Card) :
    ((replenish hand deck).1.count x + (replenish hand deck).2.count x : Nat)
      = hand.count x + deck.count x :=
  count_replenishAux 3 hand deck x

theorem progressZones1_id (p : Player) : (progressZones1 p).id = p.id := by
  unfold progressZones1
  split <;> rfl

theorem progressZones2_id (p : Player) : (progressZones2 p).id = p.id := by
  unfold progressZones2
  split
  · split <;> rfl
  · rfl

theorem progressZones_id (p : Player) : (progressZones p).id = p.id := by
  unfold progressZones
  rw [progressZones2_id, progressZones1_id]

theorem progressZones1_finished (p : Player) :
    (progressZones1 p).finished = p.finished := by
  unfold progressZones1
  split <;> rfl

theorem progressZones2_finished (p : Player) :
    (progressZones2 p).finished = p.finished := by
  unfold progressZones2
  split
  · split <;> rfl
  · rfl

theorem progressZones_finished (p : Player) :
    (progressZones p).finished = p.finished := by
  unfold progressZones
  rw [progressZones2_finished, progressZones1_finished]

theorem count_progressZones1 (p : Player) (x : Card) :
    (progressZones1 p).cards.count x = p.cards.count x := by
  unfold progressZones1
  split
  · simp only [Player.cards, List.count_append, List.count_nil]
    omega
  · rfl

theorem count_progressZones2 (p : Player) (x : Card) :
    (progressZones2 p).cards.count x = p.cards.count x := by
  unfold progressZones2
  split
  · split
    · rename_i blind hlast
      have hfd := getLast?_decomp hlast
      simp only [Player.cards, List.count_append]
      conv_rhs => rw [hfd]
      simp only [List.count_append]
      omega
    · rfl
  · rfl

theorem count_progressZones (p : Player) (x : Card) :
    (progressZones p).cards.count x = p.cards.count x := by
  unfold progressZones
  rw [count_progressZones2, count_progressZones1]

/-! ### Lemmas about the players list and card conservation -/

theorem playersCards_cons (p : Player) (ps : List Player) :
    playersCards (p :: ps) = p.cards ++ playersCards ps := rfl

theorem count_playersCards_set (ps : List Player) (i : Nat) (p p' : Player)
    (hp : ps[i]? = some p) (x : Card) :
    ((playersCards (ps.set i p')).count x + p.cards.count x : Nat)
      = (playersCards ps).count x + p'.cards.count x := by
  induction ps generalizing i with
  | nil => simp at hp
  | cons q qs ih =>
    cases i with
    | zero =>
      simp only [List.getElem?_cons_zero, Option.some.injEq] at hp
      subst hp
      simp only [List.set_cons_zero, playersCards_cons, List.count_append]
      omega
    | succ j =>
      simp only [List.getElem?_cons_succ] at hp
      have := ih j hp
      simp only [List.set_cons_succ, playersCards_cons, List.count_append]
      omega

theorem count_applyPowers (discard pile : List Card) (rank count : Nat) (x : Card) :
    ((applyPowers discard pile rank count).discard.count x
      + (applyPowers discard pile rank count).pile.count x : Nat)
      = discard.count x + pile.count x := by
  unfold applyPowers
  split
  · simp only [List.count_append, List.count_nil]
    omega
  · split
    · simp
    · split <;> simp

theorem count_applyFourKind (po : PowerOut) (x : Card) :
    ((applyFourKind po).discard.count x + (applyFourKind po).pile.count x : Nat)
      = po.discard.count x + po.pile.count x := by
  unfold applyFourKind
  split
  · simp only [List.count_append, List.count_nil]
    omega
  · rfl

theorem markFinished_id (p : Player) : (markFinished p).id = p.id := by
  unfold markFinished
  split <;> rfl

theorem markFinished_cards (p : Player) : (markFinished p).cards = p.cards := by
  unfold markFinished
  split <;> rfl

theorem resolvePlayActor_id (player : Player) (playCards deck : List Card) :
    (resolvePlayActor player playCards deck).id = player.id := by
  unfold resolvePlayActor
  rw [markFinished_id, progressZones_id]
  exact removeCardsFromPlayer_id player playCards

theorem count_resolvePlayActor (player : Player) (playCards deck : List Card)
    (hown : OwnedSubmission player playCards) (x : Card) :
    ((resolvePlayActor player playCards deck).cards.count x
      + (replenish (removeCardsFromPlayer player playCards).hand deck).2.count x
      + playCards.count x : Nat)
      = player.cards.count x + deck.count x := by
  have e1 := count_removeCardsFromPlayer player playCards hown x
  have e2 := count_replenish (removeCardsFromPlayer player playCards).hand deck x
  have e3 : (resolvePlayActor player playCards deck).cards.count x
      = ((replenish (removeCardsFromPlayer player playCards).hand deck).1.count x : Nat)
        + (removeCardsFromPlayer player playCards).faceUp.count x
        + (removeCardsFromPlayer player playCards).faceDown.count x := by
    unfold resolvePlayActor
    rw [markFinished_cards, count_progressZones]
    simp only [Player.cards, List.count_append]
  have e4 : (removeCardsFromPlayer player playCards).cards.count x
      = ((removeCardsFromPlayer player playCards).hand.count x : Nat)
        + (removeCardsFromPlayer player playCards).faceUp.count x
        + (removeCardsFromPlayer player playCards).faceDown.count x := by
    simp only [Player.cards, List.count_append]
  omega

theorem count_resolvePlay_game (g : Game) (pIdx : Nat) (player : Player)
    (playCards : List Card) (rank : Nat)
    (hp : g.players[pIdx]? = some player) (hown : OwnedSubmission player playCards)
    (x : Card) :
    (g.resolvePlay pIdx player playCards rank).game.allCards.count x
      = g.allCards.count x := by
  have hgame : (g.resolvePlay pIdx player playCards rank).game.allCards
      = (replenish (removeCardsFromPlayer player playCards).hand g.deck).2
        ++ (applyFourKind (applyPowers g.discard (g.pile ++ playCards) rank
              playCards.length)).discard
        ++ (applyFourKind (applyPowers g.discard (g.pile ++ playCards) rank
              playCards.length)).pile
        ++ playersCards (g.players.set pIdx (resolvePlayActor player playCards g.deck)) := rfl
  rw [hgame]
  have e1 := count_playersCards_set g.players pIdx player
    (resolvePlayActor player playCards g.deck) hp x
  have e2 := count_applyFourKind
    (applyPowers g.discard (g.pile ++ playCards) rank playCards.length) x
  have e3 := count_applyPowers g.discard (g.pile ++ playCards) rank playCards.length x
  have e4 := count_resolvePlayActor player playCards g.deck hown x
  simp only [Game.allCards, List.count_append] at *
  omega

theorem allCards_setCurrent (g : Game) (idx : Nat) :
    ({ g with currentPlayer := idx } : Game).allCards = g.allCards := rfl

theorem count_playTurn (g : Game) (pIdx : Nat) (player : Player) (cards : List Card)
    (fuel : Nat) (g' : Game) (r : TurnResult)
    (hp : g.players[pIdx]? = some player) (hown : OwnedSubmission player cards)
    (hok : g.playTurn pIdx cards fuel = .ok (some (g', r))) (x : Card) :
    g'.allCards.count x = g.allCards.count x := by
  unfold Game.playTurn at hok
  rw [hp] at hok
  simp only at hok
  split at hok
  · -- alreadyFinished: state returned unchanged
    simp only [Except.ok.injEq, Option.some.injEq, Prod.mk.injEq] at hok
    rw [← hok.1]
  · split at hok
    · -- pickup
      split at hok
      · exact absurd hok (by simp)
      · rename_i idx hadv
        simp only [Except.ok.injEq, Option.some.injEq, Prod.mk.injEq] at hok
        rw [← hok.1, allCards_setCurrent]
        have e1 := count_playersCards_set g.players pIdx player
          { player with hand := player.hand ++ g.pile } hp x
        simp only [Game.allCards, Player.cards, List.count_append, List.count_nil] at *
        omega
    · -- play path: validation then dispatch
      rename_i c0 rest
      split at hok
      · exact absurd hok (by simp)
      · split at hok
        · exact absurd hok (by simp)
        · have hres : (g.resolvePlay pIdx player (c0 :: rest) c0.rank).game.allCards.count x
              = g.allCards.count x :=
            count_resolvePlay_game g pIdx player (c0 :: rest) c0.rank hp hown x
          split at hok
          · split at hok
            · exact absurd hok (by simp)
            · rename_i idx hadv
              simp only [Except.ok.injEq, Option.some.injEq, Prod.mk.injEq] at hok
              rw [← hok.1, allCards_setCurrent]
              exact hres
          · split at hok
            · simp only [Except.ok.injEq, Option.some.injEq, Prod.mk.injEq] at hok
              rw [← hok.1]
              exact hres
            · split at hok
              · exact absurd hok (by simp)
              · rename_i idx hadv
                simp only [Except.ok.injEq, Option.some.injEq, Prod.mk.injEq] at hok
                rw [← hok.1, allCards_setCurrent]
                exact hres

theorem count_advancePlayer (g g' : Game) (n fuel : Nat)
    (h : g.advancePlayer n fuel = some g') (x : Card) :
    g'.allCards.count x = g.allCards.count x := by
  unfold Game.advancePlayer at h
  cases hadv : advanceIdx g.players g.currentPlayer n fuel with
  | none => rw [hadv] at h; simp at h
  | some idx =>
    rw [hadv] at h
    simp only [Option.map_some', Option.some.injEq] at h
    rw [← h, allCards_setCurrent]

theorem count_reach {g0 g : Game} (h : Reach g0 g) (x : Card) :
    g.allCards.count x = g0.allCards.count x := by
  induction h with
  | refl => rfl
  | advance hr hadv ih => exact (count_advancePlayer _ _ _ _ hadv x).trans ih
  | turn hr hp hown hok ih => exact (count_playTurn _ _ _ _ _ _ _ hp hown hok x).trans ih

/-! ### Conservation through the deal -/

theorem count_pushFaceDown (p : Player) (c : Card) (x : Card) :
    ((pushFaceDown p c).cards.count x : Nat) = p.cards.count x + List.count x [c] := by
  simp only [pushFaceDown, Player.cards, List.count_append]
  omega

theorem count_pushFaceUp (p : Player) (c : Card) (x : Card) :
    ((pushFaceUp p c).cards.count x : Nat) = p.cards.count x + List.count x [c] := by
  simp only [pushFaceUp, Player.cards, List.count_append]
  omega

theorem count_pushHand (p : Player) (c : Card) (x : Card) :
    ((pushHand p c).cards.count x : Nat) = p.cards.count x + List.count x [c] := by
  simp only [pushHand, Player.cards, List.count_append]
  omega

theorem count_dealPass (push : Player → Card → Player)
    (hpush : ∀ p c x, ((push p c).cards.count x : Nat) = p.cards.count x + List.count x [c])
    (ps : List Player) (deck : List Card) (x : Card) :
    ((playersCards (dealPass push ps deck).1).count x
      + (dealPass push ps deck).2.count x : Nat)
      = (playersCards ps).count x + deck.count x := by
  induction ps generalizing deck with
  | nil => simp [dealPass]
  | cons p ps ih =>
    simp only [dealPass]
    cases hlast : deck.getLast? with
    | none =>
      have hdeck : deck = [] := List.getLast?_eq_none_iff.mp hlast
      subst hdeck
      have := ih []
      simp only [playersCards_cons, List.count_append, List.dropLast_nil] at this ⊢
      omega
    | some c =>
      have hdeck := getLast?_decomp hlast
      have hrec := ih deck.dropLast
      have hp := hpush p c x
      simp only [playersCards_cons, List.count_append] at hrec ⊢
      conv_rhs => rw [hdeck]
      simp only [List.count_append]
      omega

theorem count_dealRounds (push : Player → Card → Player)
    (hpush : ∀ p c x, ((push p c).cards.count x : Nat) = p.cards.count x + List.count x [c])
    (k : Nat) (ps : List Player) (deck : List Card) (x : Card) :
    ((playersCards (dealRounds push k ps deck).1).count x
      + (dealRounds push k ps deck).2.count x : Nat)
      = (playersCards ps).count x + deck.count x := by
  induction k generalizing ps deck with
  | zero => rfl
  | succ k ih =>
    simp only [dealRounds]
    have h1 := count_dealPass push hpush ps deck x
    have h2 := ih (dealPass push ps deck).1 (dealPass push ps deck).2
    omega

theorem count_cons_ite (x y : Card) (l : List Card) :
    (List.count x (y :: l) : Nat) = List.count x l + (if x = y then 1 else 0) := by
  by_cases h : x = y
  · subst h
    simp [List.count_cons_self]
  · simp [List.count_cons_of_ne h, h]

theorem count_swapAdjust (hs us : List Card) (x : Card) :
    ((swapAdjust hs us).1.count x + (swapAdjust hs us).2.count x : Nat)
      = hs.count x + us.count x := by
  induction hs generalizing us with
  | nil => simp [swapAdjust]
  | cons h hs ih =>
    cases us with
    | nil => simp [swapAdjust]
    | cons u us =>
      have hrec := ih us
      simp only [swapAdjust]
      split
      all_goals
        simp only [count_cons_ite]
        generalize (if x = h then (1 : Nat) else 0) = ah
        generalize (if x = u then (1 : Nat) else 0) = au
        omega

theorem perm_sortByRank (l : List Card) : (sortByRank l).Perm l :=
  List.perm_insertionSort _ l

theorem adjustPlayer_id (p : Player) : (adjustPlayer p).id = p.id := rfl

theorem count_adjustPlayer_cards (p : Player) (x : Card) :
    (adjustPlayer p).cards.count x = p.cards.count x := by
  have hsw := count_swapAdjust (sortByRank p.hand) (sortByRank p.faceUp) x
  have hh := (perm_sortByRank p.hand).count_eq x
  have hu := (perm_sortByRank p.faceUp).count_eq x
  unfold adjustPlayer
  simp only [Player.cards, List.count_append]
  omega

theorem count_playersCards_map_adjust (ps : List Player) (x : Card) :
    (playersCards (ps.map adjustPlayer)).count x = (playersCards ps).count x := by
  induction ps with
  | nil => rfl
  | cons p ps ih =>
    simp only [List.map_cons, playersCards_cons, List.count_append, ih,
      count_adjustPlayer_cards]

theorem count_initDeal (g : Game) (x : Card) :
    g.initDeal.allCards.count x = g.allCards.count x := by
  unfold Game.initDeal
  simp only [Game.allCards, List.count_append]
  have h1 := count_dealRounds pushFaceDown count_pushFaceDown 3 g.players g.deck x
  have h2 := count_dealRounds pushFaceUp count_pushFaceUp 3
    (dealRounds pushFaceDown 3 g.players g.deck).1
    (dealRounds pushFaceDown 3 g.players g.deck).2 x
  have h3 := count_dealRounds pushHand count_pushHand 3
    (dealRounds pushFaceUp 3 (dealRounds pushFaceDown 3 g.players g.deck).1
      (dealRounds pushFaceDown 3 g.players g.deck).2).1
    (dealRounds pushFaceUp 3 (dealRounds pushFaceDown 3 g.players g.deck).1
      (dealRounds pushFaceDown 3 g.players g.deck).2).2 x
  have h4 := count_playersCards_map_adjust
    (dealRounds pushHand 3
      (dealRounds pushFaceUp 3 (dealRounds pushFaceDown 3 g.players g.deck).1
        (dealRounds pushFaceDown 3 g.players g.deck).2).1
      (dealRounds pushFaceUp 3 (dealRounds pushFaceDown 3 g.players g.deck).1
        (dealRounds pushFaceDown 3 g.players g.deck).2).2).1 x
  omega

theorem playersCards_eq_nil {ps : List Player} (h : ∀ p ∈ ps, p.cards = []) :
    playersCards ps = [] := by
  induction ps with
  | nil => rfl
  | cons p ps ih =>
    rw [playersCards_cons, h p (by simp), ih (fun q hq => h q (by simp [hq]))]
    rfl

theorem playersCards_mkPlayers (arg : CtorArg) : playersCards (mkPlayers arg) = [] := by
  cases arg with
  | num n =>
    apply playersCards_eq_nil
    intro p hp
    simp only [mkPlayers, List.mem_map] at hp
    obtain ⟨i, _, rfl⟩ := hp
    rfl
  | idList ids => rfl

theorem count_mkGame {arg : CtorArg} {shuffled : List Card} {g0 : Game}
    (h : mkGame arg shuffled = .ok g0) (x : Card) :
    g0.allCards.count x = shuffled.count x := by
  unfold mkGame at h
  split at h
  · exact absurd h (by simp)
  · simp only [Except.ok.injEq] at h
    subst h
    rw [count_initDeal]
    simp only [Game.allCards, List.count_append, playersCards_mkPlayers, List.count_nil]
    omega

theorem dealPass_ids (push : Player → Card → Player)
    (hpush : ∀ p c, (push p c).id = p.id) (ps : List Player) (deck : List Card) :
    (dealPass push ps deck).1.map Player.id = ps.map Player.id := by
  induction ps generalizing deck with
  | nil => rfl
  | cons p ps ih =>
    simp only [dealPass]
    cases hlast : deck.getLast? with
    | none => simp [List.map_cons, ih]
    | some c => simp [List.map_cons, ih, hpush]

theorem dealRounds_ids (push : Player → Card → Player)
    (hpush : ∀ p c, (push p c).id = p.id) (k : Nat) (ps : List Player) (deck : List Card) :
    (dealRounds push k ps deck).1.map Player.id = ps.map Player.id := by
  induction k generalizing ps deck with
  | zero => rfl
  | succ k ih =>
    simp only [dealRounds]
    rw [ih, dealPass_ids push hpush]

theorem initDeal_ids (g : Game) :
    g.initDeal.players.map Player.id = g.players.map Player.id := by
  show ((dealRounds pushHand 3 _ _).1.map adjustPlayer).map Player.id = _
  rw [List.map_map]
  have hcomp : Player.id ∘ adjustPlayer = Player.id := by
    funext p
    exact adjustPlayer_id p
  rw [hcomp]
  rw [dealRounds_ids pushHand (fun p c => rfl), dealRounds_ids pushFaceUp (fun p c => rfl),
    dealRounds_ids pushFaceDown (fun p c => rfl)]

/-- The game the constructor builds for two players when the Fisher-Yates
shuffle happens to return the deck unshuffled (one possible outcome). -/
def exampleGame : Game :=
  match mkGame (.num 2) standardDeckCards with
  | .ok g => g
  | .error _ =>
    { players := [], deck := [], discard := [], pile := [], currentPlayer := 0,
      direction := 1, skipCount := 0 }

/-- C1 (amended): starting from a constructed game, every state reached by
`advancePlayer` calls and by `playTurn` calls whose submission is drawn from
the acting player's own zones has exactly the 52 standard cards, as a
multiset (no card duplicated or lost) — so in particular
|deck| + |discard| + |pile| + Σ players (|hand| + |faceUp| + |faceDown|) = 52.
The ownership proviso is forced by the counterexample: `playTurn` never
checks that the player holds the submitted cards, and a submission of a
card held elsewhere is accepted and appended to the pile, breaking
conservation. -/
theorem C1_card_conservation (n : Nat) (shuffled : List Card)
    (hperm : shuffled.Perm standardDeckCards) (g0 g : Game)
    (hmk : mkGame (.num n) shuffled = .ok g0) (hreach : Reach g0 g) :
    g.allCards.Perm standardDeckCards ∧ g.allCards.length = 52 := by
  have hcnt : ∀ x, g.allCards.count x = standardDeckCards.count x := by
    intro x
    rw [count_reach hreach x, count_mkGame hmk x, hperm.count_eq x]
  have hperm2 : g.allCards.Perm standardDeckCards := List.perm_iff_count.mpr hcnt
  refine ⟨hperm2, ?_⟩
  rw [hperm2.length_eq]
  rfl

/-- C1 witness: the conservation theorem applied to the freshly constructed
two-player game itself. -/
theorem C1_witness :
    exampleGame.allCards.Perm standardDeckCards ∧ exampleGame.allCards.length = 52 :=
  C1_card_conservation 2 standardDeckCards (List.Perm.refl _) exampleGame exampleGame
    rfl Reach.refl

/-- C1 counterexample: in the constructed two-player game, the current
player submits 3 of hearts — a card still in the stock, not in any of their
zones.  Validation passes (any card is playable on the empty pile), nothing
is removed from the player, and the card is appended to the pile: the game
now holds 53 card occurrences, refuting conservation under arbitrary
`playTurn` calls. -/
theorem C1_counterexample :
    exampleGame.allCards.length = 52 ∧
      (match exampleGame.playTurn exampleGame.currentPlayer [⟨3, .hearts⟩] 10 with
        | .ok (some (g', _)) => g'.allCards.length
        | _ => 0) = 53 := by
  constructor
  · rfl
  · rfl

/-! ### The advance loop: correspondence with the landing relation,
termination, and divergence -/

theorem landings_zero {ps : List Player} {i r : Nat} (h : Landings ps i 0 r) : r = i := by
  cases h
  rfl

theorem advanceIdx_landings {ps : List Player} {idx n fuel res : Nat}
    (h : advanceIdx ps idx n fuel = some res) : Landings ps idx n res := by
  induction fuel generalizing idx n with
  | zero =>
    cases n with
    | zero =>
      simp only [advanceIdx, Option.some.injEq] at h
      subst h
      exact Landings.done idx
    | succ n => simp [advanceIdx] at h
  | succ fuel ih =>
    cases n with
    | zero =>
      simp only [advanceIdx, Option.some.injEq] at h
      subst h
      exact Landings.done idx
    | succ n =>
      simp only [advanceIdx] at h
      split at h
      · exact Landings.pass (by assumption) (ih h)
      · rename_i hfin
        exact Landings.land (by simpa using hfin) (ih h)

theorem landings_advanceIdx {ps : List Player} {idx n res : Nat}
    (h : Landings ps idx n res) : ∃ fuel, advanceIdx ps idx n fuel = some res := by
  induction h with
  | done i => exact ⟨0, rfl⟩
  | pass hfin _ ih =>
    obtain ⟨f, hf⟩ := ih
    exact ⟨f + 1, by simp only [advanceIdx, if_pos hfin]; exact hf⟩
  | land hfin _ ih =>
    obtain ⟨f, hf⟩ := ih
    refine ⟨f + 1, ?_⟩
    simp only [advanceIdx]
    rw [hfin]
    simpa using hf

theorem landings_append {ps : List Player} {n r2 : Nat} {idx m r1 : Nat}
    (h1 : Landings ps idx m r1) (h2 : Landings ps r1 n r2) :
    Landings ps idx (m + n) r2 := by
  induction h1 with
  | done i => simpa using h2
  | pass hfin _ ih =>
    rename_i ix k rr
    have he : ix + 1 + n = ix + n + 1 := by omega
    rw [he]
    have h3 := ih h2
    rw [he] at h3
    exact Landings.pass hfin h3
  | land hfin _ ih =>
    rename_i ix k rr
    have he : ix + 1 + n = ix + n + 1 := by omega
    rw [he]
    exact Landings.land hfin (ih h2)

theorem landing_of_first {ps : List Player} :
    ∀ (d idx : Nat),
      (ps.getD ((idx + d + 1) % ps.length) default).finished = false →
      (∀ j, j < d → (ps.getD ((idx + j + 1) % ps.length) default).finished = true) →
      Landings ps idx 1 ((idx + d + 1) % ps.length) := by
  intro d
  induction d with
  | zero =>
    intro idx hP _
    exact Landings.land hP (Landings.done _)
  | succ d ih =>
    intro idx hP hmin
    have h0 : (ps.getD ((idx + 1) % ps.length) default).finished = true := by
      have := hmin 0 (Nat.succ_pos d)
      simpa using this
    have hstep : ∀ j : Nat, ((idx + 1) % ps.length + j + 1) % ps.length
        = (idx + (j + 1) + 1) % ps.length := by
      intro j
      have h1 : (idx + 1) % ps.length + j + 1 = (idx + 1) % ps.length + (j + 1) := by omega
      have h2 : idx + (j + 1) + 1 = (idx + 1) + (j + 1) := by omega
      rw [h1, h2, Nat.mod_add_mod]
    have hP' : (ps.getD (((idx + 1) % ps.length + d + 1) % ps.length) default).finished
        = false := by
      rw [hstep d]
      exact hP
    have hmin' : ∀ j, j < d →
        (ps.getD (((idx + 1) % ps.length + j + 1) % ps.length) default).finished = true := by
      intro j hj
      rw [hstep j]
      exact hmin (j + 1) (by omega)
    have hrec := ih ((idx + 1) % ps.length) hP' hmin'
    rw [hstep d] at hrec
    exact Landings.pass h0 hrec

theorem exists_add_mod_eq (k i L : Nat) (hi : i < L) : ∃ j, (k + j) % L = i := by
  refine ⟨L * (k / L + 1) + i - k, ?_⟩
  have hk : L * (k / L) + k % L = k := Nat.div_add_mod k L
  have hkm : k % L < L := Nat.mod_lt _ (by omega)
  have hmul : L * (k / L + 1) = L * (k / L) + L := by ring
  have he : k + (L * (k / L + 1) + i - k) = L * (k / L + 1) + i := by omega
  rw [he, Nat.mul_add_mod]
  exact Nat.mod_eq_of_lt hi

theorem exists_landing_one {ps : List Player}
    (hex : ∃ i, i < ps.length ∧ (ps.getD i default).finished = false) (idx : Nat) :
    ∃ res, Landings ps idx 1 res ∧ res < ps.length
      ∧ (ps.getD res default).finished = false := by
  obtain ⟨i, hi, hfin⟩ := hex
  have hlen : 0 < ps.length := by omega
  have hPex : ∃ j, (ps.getD ((idx + j + 1) % ps.length) default).finished = false := by
    obtain ⟨j, hj⟩ := exists_add_mod_eq (idx + 1) i ps.length hi
    refine ⟨j, ?_⟩
    have he : idx + j + 1 = idx + 1 + j := by omega
    rw [he, hj]
    exact hfin
  classical
  refine ⟨(idx + Nat.find hPex + 1) % ps.length, ?_, Nat.mod_lt _ hlen, Nat.find_spec hPex⟩
  exact landing_of_first (Nat.find hPex) idx (Nat.find_spec hPex)
    (fun j hj => by
      have := Nat.find_min hPex hj
      simpa using this)

theorem exists_landings {ps : List Player}
    (hex : ∃ i, i < ps.length ∧ (ps.getD i default).finished = false) :
    ∀ (n idx : Nat), ∃ res, Landings ps idx n res ∧
      (1 ≤ n → res < ps.length ∧ (ps.getD res default).finished = false) := by
  intro n
  induction n with
  | zero => exact fun idx => ⟨idx, Landings.done idx, by omega⟩
  | succ n ih =>
    intro idx
    obtain ⟨r1, h1, hlt1, hfin1⟩ := exists_landing_one hex idx
    obtain ⟨r2, h2, hr2⟩ := ih r1
    refine ⟨r2, ?_, ?_⟩
    · have := landings_append h1 h2
      have he : 1 + n = n + 1 := by omega
      rw [he] at this
      exact this
    · intro _
      cases n with
      | zero =>
        have : r2 = r1 := landings_zero h2
        subst this
        exact ⟨hlt1, hfin1⟩
      | succ m => exact hr2 (by omega)

theorem advanceIdx_none_of_all_finished {ps : List Player} (hne : ps ≠ [])
    (hall : ∀ p ∈ ps, p.finished = true) :
    ∀ (fuel idx n : Nat), advanceIdx ps idx (n + 1) fuel = none := by
  intro fuel
  induction fuel with
  | zero => intro idx n; rfl
  | succ fuel ih =>
    intro idx n
    have hlen : 0 < ps.length := List.length_pos.mpr hne
    have hidx : (idx + 1) % ps.length < ps.length := Nat.mod_lt _ hlen
    have hfin : (ps.getD ((idx + 1) % ps.length) default).finished = true := by
      rw [List.getD_eq_getElem?_getD, List.getElem?_eq_getElem hidx]
      exact hall _ (List.getElem_mem hidx)
    simp only [advanceIdx]
    rw [hfin]
    simpa using ih ((idx + 1) % ps.length) n

/-- A state in which the acting player is about to play their last card
while every other player is already finished: the advance loop that
`playTurn` then runs can never terminate. -/
def divergeGame : Game :=
  { players := [⟨0, [⟨3, .hearts⟩], [], [], false⟩, ⟨1, [], [], [], true⟩],
    deck := [], discard := [], pile := [], currentPlayer := 0, direction := 1,
    skipCount := 0 }

theorem divergeGame_playTurn (fuel : Nat) :
    divergeGame.playTurn 0 [⟨3, Suit.hearts⟩] fuel = .ok none := by
  have hadv : advanceIdx
      [(⟨0, [], [], [], true⟩ : Player), ⟨1, [], [], [], true⟩] 0 1 fuel = none := by
    have := @advanceIdx_none_of_all_finished
      [(⟨0, [], [], [], true⟩ : Player), ⟨1, [], [], [], true⟩]
      (by simp)
      (by
        intro p hp
        simp only [List.mem_cons, List.not_mem_nil, or_false] at hp
        rcases hp with h | h <;> subst h <;> rfl)
      fuel 0 0
    exact this
  show (match advanceIdx
      [(⟨0, [], [], [], true⟩ : Player), ⟨1, [], [], [], true⟩] 0 1 fuel with
    | none => (Except.ok none : Except TurnError (Option (Game × TurnResult)))
    | some idx =>
      .ok (some ({ (divergeGame.resolvePlay 0 ⟨0, [⟨3, .hearts⟩], [], [], false⟩
          [⟨3, .hearts⟩] 3).game with currentPlayer := idx },
        (divergeGame.resolvePlay 0 ⟨0, [⟨3, .hearts⟩], [], [], false⟩
          [⟨3, .hearts⟩] 3).result))) = .ok none
  rw [hadv]

/-- C9: for every `n ≥ 1`, the `advancePlayer` loop terminates and leaves
`currentPlayer` at a non-finished player whenever at least one player is
non-finished (first conjunct); when every player is finished, the loop body
never decrements its counter and the call terminates for no amount of fuel
(second conjunct); and this divergent case is reachable through `playTurn`,
which unconditionally advances by 1 when the acting player finishes — in
`divergeGame` the acting player plays their last card while every other
player is already finished, and `playTurn` then diverges for every fuel
(third conjunct). -/
theorem C9_advance_termination_and_divergence :
    (∀ (g : Game) (n : Nat), 1 ≤ n →
        (∃ i, i < g.players.length ∧ (g.players.getD i default).finished = false) →
        ∃ fuel g', g.advancePlayer n fuel = some g' ∧
          g'.currentPlayer < g.players.length ∧
          (g.players.getD g'.currentPlayer default).finished = false) ∧
    (∀ (g : Game) (n fuel : Nat), g.players ≠ [] → 1 ≤ n →
        (∀ p ∈ g.players, p.finished = true) → g.advancePlayer n fuel = none) ∧
    (∀ fuel : Nat, divergeGame.playTurn 0 [⟨3, Suit.hearts⟩] fuel = .ok none) := by
  refine ⟨?_, ?_, divergeGame_playTurn⟩
  · intro g n hn hex
    obtain ⟨res, hland, hprop⟩ := exists_landings hex n g.currentPlayer
    obtain ⟨fuel, hfuel⟩ := landings_advanceIdx hland
    obtain ⟨hlt, hfin⟩ := hprop hn
    exact ⟨fuel, { g with currentPlayer := res },
      by simp [Game.advancePlayer, hfuel], hlt, hfin⟩
  · intro g n fuel hne hn hall
    obtain ⟨m, rfl⟩ : ∃ m, n = m + 1 := ⟨n - 1, by omega⟩
    simp [Game.advancePlayer,
      advanceIdx_none_of_all_finished hne hall fuel g.currentPlayer m]

/-- A two-player state with one active and one finished player, used to
instantiate the termination half of the advance theorem. -/
def witnessGameA : Game :=
  { players := [⟨0, [], [], [], false⟩, ⟨1, [], [], [], true⟩], deck := [],
    discard := [], pile := [], currentPlayer := 0, direction := 1, skipCount := 0 }

/-- A two-player state in which both players are finished, used to
instantiate the divergence half of the advance theorem. -/
def witnessGameB : Game :=
  { players := [⟨0, [], [], [], true⟩, ⟨1, [], [], [], true⟩], deck := [],
    discard := [], pile := [], currentPlayer := 0, direction := 1, skipCount := 0 }

/-- C9 witness: the three conjuncts instantiated at concrete states. -/
theorem C9_witness :
    (∃ fuel g', witnessGameA.advancePlayer 1 fuel = some g' ∧
      g'.currentPlayer < witnessGameA.players.length ∧
      (witnessGameA.players.getD g'.currentPlayer default).finished = false) ∧
    witnessGameB.advancePlayer 1 5 = none ∧
    divergeGame.playTurn 0 [⟨3, Suit.hearts⟩] 7 = .ok none :=
  ⟨C9_advance_termination_and_divergence.1 witnessGameA 1 (by decide)
      ⟨0, by decide, by decide⟩,
    C9_advance_termination_and_divergence.2.1 witnessGameB 1 5 (by decide) (by decide)
      (by decide),
    C9_advance_termination_and_divergence.2.2 7⟩

/-! ### The legality rule -/

theorem find?_reverse_eq_some {p : Card → Bool} {l : List Card} {t : Card} :
    l.reverse.find? p = some t ↔
      (p t = true ∧ ∃ l1 l2, l = l1 ++ t :: l2 ∧ ∀ x ∈ l2, p x = false) := by
  rw [List.find?_eq_some]
  constructor
  · rintro ⟨hpt, as, bs, hrev, hmin⟩
    refine ⟨hpt, bs.reverse, as.reverse, ?_, ?_⟩
    · have := congrArg List.reverse hrev
      simpa [List.reverse_append] using this
    · intro x hx
      have := hmin x (List.mem_reverse.mp hx)
      simpa using this
  · rintro ⟨hpt, l1, l2, rfl, hmin⟩
    refine ⟨hpt, l2.reverse, l1.reverse, ?_, ?_⟩
    · simp [List.reverse_append]
    · intro a ha
      have := hmin a (List.mem_reverse.mp ha)
      simpa using this

/-- C3: the legality rule of `isPlayable` — ranks 10, 2 and 8 are always
legal; otherwise a card is legal when there is no effective top; when the
effective top has rank 7 legality means rank at most 7, and otherwise it
means rank at least the effective top's rank.  The effective top is
characterized as the first card of rank other than 8 scanning the pile from
most recently played backward: it is `none` exactly when the pile is all 8s
(in particular when empty), and it is `some t` exactly when the pile splits
as `l1 ++ t :: l2` with `t` not an 8 and everything played after `t` (the
suffix `l2`) an 8. -/
theorem C3_isPlayable_characterization (g : Game) (c : Card) :
    (g.isPlayable c = true ↔
      ((c.rank = 10 ∨ c.rank = 2 ∨ c.rank = 8)
        ∨ g.topEffectiveCard = none
        ∨ (∃ t, g.topEffectiveCard = some t ∧
            ((t.rank = 7 ∧ c.rank ≤ 7) ∨ (t.rank ≠ 7 ∧ t.rank ≤ c.rank))))) ∧
    (g.topEffectiveCard = none ↔ ∀ x ∈ g.pile, x.rank = 8) ∧
    (∀ t : Card, g.topEffectiveCard = some t ↔
      (t.rank ≠ 8 ∧ ∃ l1 l2, g.pile = l1 ++ t :: l2 ∧ ∀ x ∈ l2, x.rank = 8)) := by
  refine ⟨?_, ?_, ?_⟩
  · by_cases h10 : c.rank = 10
    · simp [Game.isPlayable, h10]
    · by_cases h2 : c.rank = 2
      · simp [Game.isPlayable, h10, h2]
      · by_cases h8 : c.rank = 8
        · simp [Game.isPlayable, h10, h2, h8]
        · cases htop : g.topEffectiveCard with
          | none => simp [Game.isPlayable, h10, h2, h8, htop]
          | some t =>
            by_cases h7 : t.rank = 7
            · simp [Game.isPlayable, h10, h2, h8, htop, h7]
            · simp [Game.isPlayable, h10, h2, h8, htop, h7]
  · unfold Game.topEffectiveCard
    rw [List.find?_eq_none]
    constructor
    · intro h x hx
      have := h x (List.mem_reverse.mpr hx)
      simpa using this
    · intro h x hx
      simp [h x (List.mem_reverse.mp hx)]
  · intro t
    unfold Game.topEffectiveCard
    rw [find?_reverse_eq_some]
    constructor
    · rintro ⟨hpt, l1, l2, hdec, hmin⟩
      exact ⟨by simpa using hpt, l1, l2, hdec, fun x hx => by simpa using hmin x hx⟩
    · rintro ⟨ht8, l1, l2, hdec, hmin⟩
      exact ⟨by simpa using ht8, l1, l2, hdec, fun x hx => by simp [hmin x hx]⟩

/-- C10: every card of the constructed deck has rank at least 2, so when the
effective top is a 2 (a played 2 left on the pile) the comparison branch
`card.rank ≥ 2` always holds and every deck card is playable — a 2 on the
pile acts as a reset for legality even though the pile is not cleared. -/
theorem C10_two_on_pile_allows_any (c : Card) (hc : c ∈ standardDeckCards)
    (g : Game) (t : Card) (ht : g.topEffectiveCard = some t) (h2 : t.rank = 2) :
    g.isPlayable c = true := by
  have hr : 2 ≤ c.rank ∧ c.rank ≤ 14 := by
    have hall : ∀ x ∈ standardDeckCards, 2 ≤ x.rank ∧ x.rank ≤ 14 := by decide
    exact hall c hc
  by_cases h10 : c.rank = 10
  · simp [Game.isPlayable, h10]
  · by_cases h2c : c.rank = 2
    · simp [Game.isPlayable, h10, h2c]
    · by_cases h8 : c.rank = 8
      · simp [Game.isPlayable, h10, h2c, h8]
      · simp only [Game.isPlayable, h10, h2c, h8, ht, h2, if_false]
        simp [h2]
        omega

/-- A state whose pile holds a single played 2, for the C10 witness. -/
def twoOnPileGame : Game :=
  { players := [], deck := [], discard := [], pile := [⟨2, Suit.spades⟩],
    currentPlayer := 0, direction := 1, skipCount := 0 }

/-- C10 witness: a 3 of hearts is playable on a pile whose top is a 2. -/
theorem C10_witness : twoOnPileGame.isPlayable ⟨3, Suit.hearts⟩ = true :=
  C10_two_on_pile_allows_any ⟨3, Suit.hearts⟩ (by decide) twoOnPileGame
    ⟨2, Suit.spades⟩ rfl rfl

/-! ### Validation failures -/

/-- C2: a `playTurn` call on a player who still has cards, with a non-empty
submission that fails validation — the cards are not all of one rank, or
some submitted card is not playable against the current effective top —
returns an invalid-move error naming the failure.  In this pure embedding
an error result carries no successor state at all, which mirrors the
source: both `throw` sites (lines 300 and 306) precede the first mutation
(`removeCardsFromPlayer`, line 310), so a rejected call leaves every field
of the game exactly as it was and the caller may retry. -/
theorem C2_invalid_move_rejected (g : Game) (pIdx : Nat) (player : Player)
    (c0 : Card) (rest : List Card) (fuel : Nat)
    (hp : g.players[pIdx]? = some player) (hc : player.hasCards = true)
    (hbad : (∃ c ∈ c0 :: rest, c.rank ≠ c0.rank)
      ∨ (∃ c ∈ c0 :: rest, g.isPlayable c = false)) :
    ∃ e, g.playTurn pIdx (c0 :: rest) fuel = .error e ∧
      (e = .notSameRank ∨ ∃ cBad, e = TurnError.notPlayable cBad
        ∧ g.isPlayable cBad = false ∧ cBad ∈ c0 :: rest) := by
  unfold Game.playTurn
  rw [hp]
  simp only [hc]
  rw [if_neg (by simp)]
  by_cases hrank : ∀ c ∈ c0 :: rest, c.rank = c0.rank
  · have hex : ∃ c ∈ c0 :: rest, g.isPlayable c = false := by
      rcases hbad with h | h
      · obtain ⟨c, hcmem, hcne⟩ := h
        exact absurd (hrank c hcmem) hcne
      · exact h
    rw [if_neg (by simpa using hrank)]
    cases hfind : (c0 :: rest).find? (fun c => decide (g.isPlayable c = false)) with
    | none =>
      exfalso
      obtain ⟨c, hcmem, hcpl⟩ := hex
      have := List.find?_eq_none.mp hfind c hcmem
      simp [hcpl] at this
    | some cBad =>
      refine ⟨.notPlayable cBad, rfl, Or.inr ⟨cBad, rfl, ?_, ?_⟩⟩
      · have := List.find?_some hfind
        simpa using this
      · exact List.mem_of_find?_eq_some hfind
  · rw [if_pos (by simpa using hrank)]
    exact ⟨.notSameRank, rfl, Or.inl rfl⟩

/-- A state whose effective top is a 7, used to exercise a rejected play. -/
def invalidMoveGame : Game :=
  { players := [⟨0, [⟨9, Suit.spades⟩], [], [], false⟩], deck := [], discard := [],
    pile := [⟨7, Suit.diamonds⟩], currentPlayer := 0, direction := 1, skipCount := 0 }

/-- C2 witness: submitting a 9 on an effective top of 7 is rejected. -/
theorem C2_witness :
    ∃ e, invalidMoveGame.playTurn 0 [⟨9, Suit.spades⟩] 5 = .error e ∧
      (e = .notSameRank ∨ ∃ cBad, e = TurnError.notPlayable cBad
        ∧ invalidMoveGame.isPlayable cBad = false ∧ cBad ∈ [⟨9, Suit.spades⟩]) :=
  C2_invalid_move_rejected invalidMoveGame 0 ⟨0, [⟨9, Suit.spades⟩], [], [], false⟩
    ⟨9, Suit.spades⟩ [] 5 rfl rfl
    (Or.inr ⟨⟨9, Suit.spades⟩, by decide, by decide⟩)

/-! ### The dispatch of the next turn owner -/

theorem getD_set_self {ps : List Player} {i : Nat} {p : Player} (h : i < ps.length) :
    (ps.set i p).getD i default = p := by
  rw [List.getD_eq_getElem?_getD, List.getElem?_set_self h]
  rfl

theorem resolvePlay_players_getD (g : Game) (pIdx : Nat) (player : Player)
    (cards : List Card) (rank : Nat) (h : pIdx < g.players.length) :
    (g.resolvePlay pIdx player cards rank).game.players.getD pIdx default
      = resolvePlayActor player cards g.deck := by
  show (g.players.set pIdx _).getD pIdx default = _
  exact getD_set_self h

theorem resolvePlay_actor_eq (g : Game) (pIdx : Nat) (player : Player)
    (cards : List Card) (rank : Nat) :
    (g.resolvePlay pIdx player cards rank).actor
      = resolvePlayActor player cards g.deck := rfl

theorem resolvePlay_result_eq (g : Game) (pIdx : Nat) (player : Player)
    (c0 : Card) (rest : List Card) :
    (g.resolvePlay pIdx player (c0 :: rest) c0.rank).result =
      .played (if c0.rank = 10 then true else fourKindTriggers (g.pile ++ (c0 :: rest)))
        (if c0.rank = 5 then (c0 :: rest).length else 0)
        (if c0.rank = 10 ∨ c0.rank = 2 then true
          else fourKindTriggers (g.pile ++ (c0 :: rest))) := by
  show TurnResult.played _ _ _ = _
  by_cases h10 : c0.rank = 10
  · simp [applyFourKind, applyPowers, h10, fourKindTriggers]
  · by_cases h2 : c0.rank = 2
    · by_cases hfk : fourKindTriggers (g.pile ++ (c0 :: rest)) = true
      · simp [applyFourKind, applyPowers, h10, h2, hfk]
      · simp only [Bool.not_eq_true] at hfk
        simp [applyFourKind, applyPowers, h10, h2, hfk]
    · by_cases h5 : c0.rank = 5
      · by_cases hfk : fourKindTriggers (g.pile ++ (c0 :: rest)) = true
        · simp [applyFourKind, applyPowers, h10, h2, h5, hfk]
        · simp only [Bool.not_eq_true] at hfk
          simp [applyFourKind, applyPowers, h10, h2, h5, hfk]
      · by_cases hfk : fourKindTriggers (g.pile ++ (c0 :: rest)) = true
        · simp [applyFourKind, applyPowers, h10, h2, h5, hfk]
        · simp only [Bool.not_eq_true] at hfk
          simp [applyFourKind, applyPowers, h10, h2, h5, hfk]

theorem playTurn_play_ok_inv {g : Game} {pIdx : Nat} {player : Player} {c0 : Card}
    {rest : List Card} {fuel : Nat} {g' : Game} {r : TurnResult}
    (hp : g.players[pIdx]? = some player) (hc : player.hasCards = true)
    (hok : g.playTurn pIdx (c0 :: rest) fuel = .ok (some (g', r))) :
    ∃ idx,
      g' = { (g.resolvePlay pIdx player (c0 :: rest) c0.rank).game with currentPlayer := idx }
      ∧ r = (g.resolvePlay pIdx player (c0 :: rest) c0.rank).result
      ∧ (if (g.resolvePlay pIdx player (c0 :: rest) c0.rank).actor.finished = true then
          advanceIdx (g.resolvePlay pIdx player (c0 :: rest) c0.rank).game.players
            g.currentPlayer 1 fuel = some idx
        else if (g.resolvePlay pIdx player (c0 :: rest) c0.rank).result.extraOf = true then
          idx = g.currentPlayer
        else
          advanceIdx (g.resolvePlay pIdx player (c0 :: rest) c0.rank).game.players
            g.currentPlayer
            (1 + (g.resolvePlay pIdx player (c0 :: rest) c0.rank).result.skipOf) fuel
            = some idx) := by
  unfold Game.playTurn at hok
  rw [hp] at hok
  simp only [hc] at hok
  rw [if_neg (by simp)] at hok
  split at hok
  · exact absurd hok (by simp)
  · split at hok
    · exact absurd hok (by simp)
    · split at hok
      · rename_i hfin
        split at hok
        · exact absurd hok (by simp)
        · rename_i idx hadv
          simp only [Except.ok.injEq, Option.some.injEq, Prod.mk.injEq] at hok
          refine ⟨idx, hok.1.symm, hok.2.symm, ?_⟩
          rw [if_pos hfin]
          exact hadv
      · rename_i hfin
        split at hok
        · rename_i hextra
          simp only [Except.ok.injEq, Option.some.injEq, Prod.mk.injEq] at hok
          refine ⟨g.currentPlayer, ?_, hok.2.symm, ?_⟩
          · rw [← hok.1]
            rfl
          · rw [if_neg hfin, if_pos hextra]
        · rename_i hextra
          split at hok
          · exact absurd hok (by simp)
          · rename_i idx hadv
            simp only [Except.ok.injEq, Option.some.injEq, Prod.mk.injEq] at hok
            refine ⟨idx, hok.1.symm, hok.2.symm, ?_⟩
            rw [if_neg hfin, if_neg hextra]
            exact hadv

/-- C5: the next turn owner after a successful `playTurn` on a previously
unfinished player who still had cards.  A pickup is reported as `pickedUp`;
a play is reported with the `burn`, `skip` and `extraTurn` flags computed
from the played rank and the four-of-a-kind test on the extended pile.  The
dispatch follows the source's precedence: if the acting player's finished
flag became true this turn, `currentPlayer` advances by exactly one
landing; otherwise an extra turn (rank 10, rank 2, or four-of-a-kind burn)
leaves `currentPlayer` unchanged; otherwise it advances by
`1 + skip` landings — where `Landings` is the advance algorithm: step
forward one position at a time, wrapping circularly, counting only steps
that land on a non-finished player. -/
theorem C5_next_turn_owner (g : Game) (pIdx : Nat) (player : Player)
    (cards : List Card) (fuel : Nat) (g' : Game) (r : TurnResult)
    (hp : g.players[pIdx]? = some player) (hpre : player.finished = false)
    (hc : player.hasCards = true)
    (hok : g.playTurn pIdx cards fuel = .ok (some (g', r))) :
    (cards = [] → r = .pickedUp) ∧
    (∀ c0 rest, cards = c0 :: rest →
      r = .played (if c0.rank = 10 then true else fourKindTriggers (g.pile ++ cards))
        (if c0.rank = 5 then cards.length else 0)
        (if c0.rank = 10 ∨ c0.rank = 2 then true
          else fourKindTriggers (g.pile ++ cards))) ∧
    (if (g'.players.getD pIdx default).finished = true then
        Landings g'.players g.currentPlayer 1 g'.currentPlayer
      else if r.extraOf = true then g'.currentPlayer = g.currentPlayer
      else Landings g'.players g.currentPlayer (1 + r.skipOf) g'.currentPlayer) := by
  have hlt : pIdx < g.players.length := by
    rcases List.getElem?_eq_some.mp hp with ⟨h, _⟩
    exact h
  cases cards with
  | nil =>
    unfold Game.playTurn at hok
    rw [hp] at hok
    simp only [hc] at hok
    rw [if_neg (by simp)] at hok
    split at hok
    · exact absurd hok (by simp)
    · rename_i idx hadv
      simp only [Except.ok.injEq, Option.some.injEq, Prod.mk.injEq] at hok
      obtain ⟨hg, hr⟩ := hok
      subst hr
      refine ⟨fun _ => rfl, fun c0 rest h => by simp at h, ?_⟩
      rw [← hg]
      have hfin : ((g.players.set pIdx
          { player with hand := player.hand ++ g.pile }).getD pIdx default).finished
          = false := by
        rw [getD_set_self hlt]
        exact hpre
      show (if _ = true then _ else _)
      rw [if_neg (by rw [hfin]; simp)]
      rw [if_neg (by simp [TurnResult.extraOf])]
      simpa using advanceIdx_landings hadv
  | cons c0 rest =>
    obtain ⟨idx, hg, hr, hdisp⟩ := playTurn_play_ok_inv hp hc hok
    have hgetd : g'.players.getD pIdx default = resolvePlayActor player (c0 :: rest) g.deck := by
      rw [hg]
      exact resolvePlay_players_getD g pIdx player (c0 :: rest) c0.rank hlt
    refine ⟨fun h => by simp at h, ?_, ?_⟩
    · intro c0' rest' heq
      injection heq with h1 h2
      subst h1
      subst h2
      rw [hr]
      exact resolvePlay_result_eq g pIdx player c0 rest
    · by_cases hfin : (g.resolvePlay pIdx player (c0 :: rest) c0.rank).actor.finished = true
      · rw [if_pos (by rw [hgetd, ← resolvePlay_actor_eq g pIdx player (c0 :: rest) c0.rank]; exact hfin)]
        rw [if_pos hfin] at hdisp
        have : g'.players = (g.resolvePlay pIdx player (c0 :: rest) c0.rank).game.players := by
          rw [hg]
        rw [this]
        have hcur : g'.currentPlayer = idx := by rw [hg]
        rw [hcur]
        exact advanceIdx_landings hdisp
      · rw [if_neg (by rw [hgetd, ← resolvePlay_actor_eq g pIdx player (c0 :: rest) c0.rank]; exact hfin)]
        rw [if_neg hfin] at hdisp
        by_cases hextra : (g.resolvePlay pIdx player (c0 :: rest) c0.rank).result.extraOf = true
        · rw [if_pos (by rw [hr]; exact hextra)]
          rw [if_pos hextra] at hdisp
          rw [hg, hdisp]
        · rw [if_neg (by rw [hr]; exact hextra)]
          rw [if_neg hextra] at hdisp
          have hps : g'.players
              = (g.resolvePlay pIdx player (c0 :: rest) c0.rank).game.players := by
            rw [hg]
          have hcur : g'.currentPlayer = idx := by rw [hg]
          rw [hps, hcur, hr]
          exact advanceIdx_landings hdisp

/-- A small ordinary-play state for instantiating the dispatch theorem. -/
def dispatchGame : Game :=
  { players := [⟨0, [⟨4, Suit.hearts⟩, ⟨5, Suit.diamonds⟩], [], [], false⟩,
      ⟨1, [⟨6, Suit.clubs⟩], [], [], false⟩],
    deck := [], discard := [], pile := [], currentPlayer := 0, direction := 1,
    skipCount := 0 }

/-- The state after player 0 of `dispatchGame` plays their 4 of hearts. -/
def dispatchGame' : Game :=
  { players := [⟨0, [⟨5, Suit.diamonds⟩], [], [], false⟩,
      ⟨1, [⟨6, Suit.clubs⟩], [], [], false⟩],
    deck := [], discard := [], pile := [⟨4, Suit.hearts⟩], currentPlayer := 1,
    direction := 1, skipCount := 0 }

/-- C5 witness: the dispatch theorem instantiated at a concrete ordinary
play (rank 4, no effects): the turn passes by one landing. -/
theorem C5_witness :
    (([⟨4, Suit.hearts⟩] : List Card) = [] → TurnResult.played false 0 false = .pickedUp) ∧
      (∀ c0 rest, ([⟨4, Suit.hearts⟩] : List Card) = c0 :: rest →
        TurnResult.played false 0 false =
          .played (if c0.rank = 10 then true
              else fourKindTriggers (dispatchGame.pile ++ [⟨4, Suit.hearts⟩]))
            (if c0.rank = 5 then ([⟨4, Suit.hearts⟩] : List Card).length else 0)
            (if c0.rank = 10 ∨ c0.rank = 2 then true
              else fourKindTriggers (dispatchGame.pile ++ [⟨4, Suit.hearts⟩]))) ∧
      (if (dispatchGame'.players.getD 0 default).finished = true then
          Landings dispatchGame'.players dispatchGame.currentPlayer 1
            dispatchGame'.currentPlayer
        else if (TurnResult.played false 0 false).extraOf = true then
          dispatchGame'.currentPlayer = dispatchGame.currentPlayer
        else Landings dispatchGame'.players dispatchGame.currentPlayer
          (1 + (TurnResult.played false 0 false).skipOf) dispatchGame'.currentPlayer) := by
  exact C5_next_turn_owner dispatchGame 0
    ⟨0, [⟨4, Suit.hearts⟩, ⟨5, Suit.diamonds⟩], [], [], false⟩ [⟨4, Suit.hearts⟩] 5
    dispatchGame' (TurnResult.played false 0 false) rfl rfl rfl rfl

/-! ### Four-of-a-kind burns and the rank-2 effect -/

theorem applyChain_burn (discard pile1 : List Card) (rank cnt : Nat)
    (h10 : rank ≠ 10) (h4 : fourKindTriggers pile1 = true) :
    applyFourKind (applyPowers discard pile1 rank cnt)
      = { discard := discard ++ pile1, pile := [], burn := true,
          skip := if rank = 5 then cnt else 0, extraTurn := true } := by
  by_cases h2 : rank = 2
  · simp [applyPowers, applyFourKind, h10, h2, h4]
  · by_cases h5 : rank = 5
    · simp [applyPowers, applyFourKind, h10, h2, h5, h4]
    · simp [applyPowers, applyFourKind, h10, h2, h5, h4]

theorem applyChain_rank2 (discard pile1 : List Card) (cnt : Nat)
    (h4 : fourKindTriggers pile1 = false) :
    applyFourKind (applyPowers discard pile1 2 cnt)
      = { discard := discard, pile := pile1, burn := false, skip := 0,
          extraTurn := true } := by
  simp [applyPowers, applyFourKind, h4]

/-- C4 (amended): a successful play that is not a rank-10 burn and whose
appended cards make the four most-recently-played pile cards share one rank
moves the entire pile (old contents plus the played cards) to the discard,
leaves the pile empty, reports an extra turn, and — provided the acting
player did not finish this turn — leaves `currentPlayer` unchanged, even
when the played rank is 5 and a skip count was set.  The proviso is forced
by the counterexample: when the burn play empties the player's last zone,
the source's finished-dispatch takes precedence and advances the turn. -/
theorem C4_fourkind_burn (g : Game) (pIdx : Nat) (player : Player) (c0 : Card)
    (rest : List Card) (fuel : Nat) (g' : Game) (r : TurnResult)
    (hp : g.players[pIdx]? = some player) (hc : player.hasCards = true)
    (h10 : c0.rank ≠ 10) (h4 : fourKindTriggers (g.pile ++ (c0 :: rest)) = true)
    (hok : g.playTurn pIdx (c0 :: rest) fuel = .ok (some (g', r)))
    (hnf : (g'.players.getD pIdx default).finished = false) :
    g'.pile = [] ∧ g'.discard = g.discard ++ (g.pile ++ (c0 :: rest))
      ∧ g'.currentPlayer = g.currentPlayer ∧ r.extraOf = true := by
  have hlt : pIdx < g.players.length := by
    rcases List.getElem?_eq_some.mp hp with ⟨h, _⟩
    exact h
  obtain ⟨idx, hg, hr, hdisp⟩ := playTurn_play_ok_inv hp hc hok
  have hgetd : g'.players.getD pIdx default
      = (g.resolvePlay pIdx player (c0 :: rest) c0.rank).actor := by
    rw [hg, resolvePlay_actor_eq]
    exact resolvePlay_players_getD g pIdx player (c0 :: rest) c0.rank hlt
  have hactor : (g.resolvePlay pIdx player (c0 :: rest) c0.rank).actor.finished = false := by
    rw [← hgetd]
    exact hnf
  have hpo := applyChain_burn g.discard (g.pile ++ (c0 :: rest)) c0.rank
    (c0 :: rest).length h10 h4
  have hresu : (g.resolvePlay pIdx player (c0 :: rest) c0.rank).result
      = .played true (if c0.rank = 5 then (c0 :: rest).length else 0) true := by
    show TurnResult.played _ _ _ = _
    rw [hpo]
  have hextra : (g.resolvePlay pIdx player (c0 :: rest) c0.rank).result.extraOf = true := by
    rw [hresu]
    rfl
  rw [if_neg (by rw [hactor]; simp)] at hdisp
  rw [if_pos hextra] at hdisp
  refine ⟨?_, ?_, ?_, ?_⟩
  · rw [hg]
    show (applyFourKind (applyPowers g.discard (g.pile ++ (c0 :: rest)) c0.rank
      (c0 :: rest).length)).pile = []
    rw [hpo]
  · rw [hg]
    show (applyFourKind (applyPowers g.discard (g.pile ++ (c0 :: rest)) c0.rank
      (c0 :: rest).length)).discard = _
    rw [hpo]
  · rw [hg]
    exact hdisp
  · rw [hr, hresu]
    rfl

/-- The state in which player 0's whole holding is exactly four 5s. -/
def fourFivesGame : Game :=
  { players := [⟨0, [⟨5, Suit.clubs⟩, ⟨5, Suit.diamonds⟩, ⟨5, Suit.hearts⟩,
      ⟨5, Suit.spades⟩], [], [], false⟩, ⟨1, [⟨3, Suit.hearts⟩], [], [], false⟩],
    deck := [], discard := [], pile := [], currentPlayer := 0, direction := 1,
    skipCount := 0 }

/-- The state after the four 5s are played: the burn happened, but because
the acting player finished, the turn moved to player 1. -/
def fourFivesGame' : Game :=
  { players := [⟨0, [], [], [], true⟩, ⟨1, [⟨3, Suit.hearts⟩], [], [], false⟩],
    deck := [],
    discard := [⟨5, Suit.clubs⟩, ⟨5, Suit.diamonds⟩, ⟨5, Suit.hearts⟩, ⟨5, Suit.spades⟩],
    pile := [], currentPlayer := 1, direction := 1, skipCount := 0 }

/-- C4 counterexample: playing four 5s as one's last cards burns the pile,
but the acting player does NOT retain the turn — `currentPlayer` moves from
0 to 1 because the finished-player dispatch takes precedence over the
extra turn, refuting the claim as stated. -/
theorem C4_counterexample :
    fourFivesGame.playTurn 0
        [⟨5, Suit.clubs⟩, ⟨5, Suit.diamonds⟩, ⟨5, Suit.hearts⟩, ⟨5, Suit.spades⟩] 10
      = .ok (some (fourFivesGame', .played true 4 true))
      ∧ fourFivesGame.currentPlayer = 0 ∧ fourFivesGame'.currentPlayer = 1 := by
  refine ⟨rfl, rfl, rfl⟩

/-- A four-5s burn in which the player keeps a card and hence the turn. -/
def fourFivesKeepGame : Game :=
  { players := [⟨0, [⟨5, Suit.clubs⟩, ⟨5, Suit.diamonds⟩, ⟨5, Suit.hearts⟩,
      ⟨5, Suit.spades⟩, ⟨3, Suit.hearts⟩], [], [], false⟩,
      ⟨1, [⟨4, Suit.hearts⟩], [], [], false⟩],
    deck := [], discard := [], pile := [], currentPlayer := 0, direction := 1,
    skipCount := 0 }

/-- The state after the non-finishing four-5s burn: pile burned, same
player to move. -/
def fourFivesKeepGame' : Game :=
  { players := [⟨0, [⟨3, Suit.hearts⟩], [], [], false⟩,
      ⟨1, [⟨4, Suit.hearts⟩], [], [], false⟩],
    deck := [],
    discard := [⟨5, Suit.clubs⟩, ⟨5, Suit.diamonds⟩, ⟨5, Suit.hearts⟩, ⟨5, Suit.spades⟩],
    pile := [], currentPlayer := 0, direction := 1, skipCount := 0 }

/-- C4 witness: the amended burn theorem instantiated at the
non-finishing four-5s play. -/
theorem C4_witness :
    fourFivesKeepGame'.pile = [] ∧
      fourFivesKeepGame'.discard
        = fourFivesKeepGame.discard ++ (fourFivesKeepGame.pile
            ++ [⟨5, Suit.clubs⟩, ⟨5, Suit.diamonds⟩, ⟨5, Suit.hearts⟩, ⟨5, Suit.spades⟩]) ∧
      fourFivesKeepGame'.currentPlayer = fourFivesKeepGame.currentPlayer ∧
      (TurnResult.played true 4 true).extraOf = true :=
  C4_fourkind_burn fourFivesKeepGame 0
    ⟨0, [⟨5, Suit.clubs⟩, ⟨5, Suit.diamonds⟩, ⟨5, Suit.hearts⟩, ⟨5, Suit.spades⟩,
      ⟨3, Suit.hearts⟩], [], [], false⟩
    ⟨5, Suit.clubs⟩ [⟨5, Suit.diamonds⟩, ⟨5, Suit.hearts⟩, ⟨5, Suit.spades⟩] 10
    fourFivesKeepGame' (.played true 4 true) rfl rfl (by decide) rfl rfl rfl

/-- C6 (amended): a successful play of cards that are all rank 2 grants an
extra turn and, provided the play does not complete a four-of-a-kind, the
pile is NOT cleared: the played 2s stay on the pile (appended in submission
order) and the discard is untouched; `currentPlayer` is unchanged when the
acting player did not finish.  The four-of-a-kind proviso is forced by the
counterexample: when the play makes the four most recent pile cards all 2s,
the burn check fires and the pile does move to the discard. -/
theorem C6_rank2_extra_turn (g : Game) (pIdx : Nat) (player : Player) (c0 : Card)
    (rest : List Card) (fuel : Nat) (g' : Game) (r : TurnResult)
    (hp : g.players[pIdx]? = some player) (hc : player.hasCards = true)
    (hall : ∀ c ∈ c0 :: rest, c.rank = 2)
    (h4 : fourKindTriggers (g.pile ++ (c0 :: rest)) = false)
    (hok : g.playTurn pIdx (c0 :: rest) fuel = .ok (some (g', r))) :
    r = .played false 0 true ∧ g'.pile = g.pile ++ (c0 :: rest)
      ∧ g'.discard = g.discard
      ∧ ((g'.players.getD pIdx default).finished = false →
          g'.currentPlayer = g.currentPlayer) := by
  have hlt : pIdx < g.players.length := by
    rcases List.getElem?_eq_some.mp hp with ⟨h, _⟩
    exact h
  have hc0 : c0.rank = 2 := hall c0 (by simp)
  obtain ⟨idx, hg, hr, hdisp⟩ := playTurn_play_ok_inv hp hc hok
  have hpo : applyFourKind (applyPowers g.discard (g.pile ++ (c0 :: rest)) c0.rank
      (c0 :: rest).length)
      = { discard := g.discard, pile := g.pile ++ (c0 :: rest), burn := false,
          skip := 0, extraTurn := true } := by
    rw [hc0]
    exact applyChain_rank2 g.discard (g.pile ++ (c0 :: rest)) (c0 :: rest).length h4
  have hresu : (g.resolvePlay pIdx player (c0 :: rest) c0.rank).result
      = .played false 0 true := by
    show TurnResult.played _ _ _ = _
    rw [hpo]
  refine ⟨by rw [hr, hresu], ?_, ?_, ?_⟩
  · rw [hg]
    show (applyFourKind (applyPowers g.discard (g.pile ++ (c0 :: rest)) c0.rank
      (c0 :: rest).length)).pile = _
    rw [hpo]
  · rw [hg]
    show (applyFourKind (applyPowers g.discard (g.pile ++ (c0 :: rest)) c0.rank
      (c0 :: rest).length)).discard = _
    rw [hpo]
  · intro hnf
    have hgetd : g'.players.getD pIdx default
        = (g.resolvePlay pIdx player (c0 :: rest) c0.rank).actor := by
      rw [hg, resolvePlay_actor_eq]
      exact resolvePlay_players_getD g pIdx player (c0 :: rest) c0.rank hlt
    have hactor : (g.resolvePlay pIdx player (c0 :: rest) c0.rank).actor.finished
        = false := by
      rw [← hgetd]
      exact hnf
    have hextra : (g.resolvePlay pIdx player (c0 :: rest) c0.rank).result.extraOf
        = true := by
      rw [hresu]
      rfl
    rw [if_neg (by rw [hactor]; simp), if_pos hextra] at hdisp
    rw [hg]
    exact hdisp

/-- A state holding two 2s and a 3 with a 9 already on the pile. -/
def twosGame : Game :=
  { players := [⟨0, [⟨2, Suit.hearts⟩, ⟨2, Suit.diamonds⟩, ⟨3, Suit.hearts⟩], [], [],
      false⟩, ⟨1, [⟨4, Suit.hearts⟩], [], [], false⟩],
    deck := [], discard := [], pile := [⟨9, Suit.clubs⟩], currentPlayer := 0,
    direction := 1, skipCount := 0 }

/-- The state after playing the two 2s on the 9: the 2s stay on the pile,
the discard is untouched, and the same player moves again. -/
def twosGame' : Game :=
  { players := [⟨0, [⟨3, Suit.hearts⟩], [], [], false⟩,
      ⟨1, [⟨4, Suit.hearts⟩], [], [], false⟩],
    deck := [], discard := [],
    pile := [⟨9, Suit.clubs⟩, ⟨2, Suit.hearts⟩, ⟨2, Suit.diamonds⟩],
    currentPlayer := 0, direction := 1, skipCount := 0 }

/-- C6 witness: the amended rank-2 theorem instantiated at a play of two 2s
onto a 9. -/
theorem C6_witness :
    TurnResult.played false 0 true = .played false 0 true ∧
      twosGame'.pile = twosGame.pile ++ [⟨2, Suit.hearts⟩, ⟨2, Suit.diamonds⟩] ∧
      twosGame'.discard = twosGame.discard ∧
      ((twosGame'.players.getD 0 default).finished = false →
        twosGame'.currentPlayer = twosGame.currentPlayer) :=
  C6_rank2_extra_turn twosGame 0
    ⟨0, [⟨2, Suit.hearts⟩, ⟨2, Suit.diamonds⟩, ⟨3, Suit.hearts⟩], [], [], false⟩
    ⟨2, Suit.hearts⟩ [⟨2, Suit.diamonds⟩] 10 twosGame' (.played false 0 true)
    rfl rfl (by decide) rfl rfl

/-- A state holding four 2s and a 3, with an empty pile. -/
def fourTwosGame : Game :=
  { players := [⟨0, [⟨2, Suit.hearts⟩, ⟨2, Suit.diamonds⟩, ⟨2, Suit.clubs⟩,
      ⟨2, Suit.spades⟩, ⟨3, Suit.hearts⟩], [], [], false⟩,
      ⟨1, [⟨4, Suit.hearts⟩], [], [], false⟩],
    deck := [], discard := [], pile := [], currentPlayer := 0, direction := 1,
    skipCount := 0 }

/-- The state after all four 2s are played at once: the four-of-a-kind burn
fires, the 2s do NOT remain on the pile — they move to the discard. -/
def fourTwosGame' : Game :=
  { players := [⟨0, [⟨3, Suit.hearts⟩], [], [], false⟩,
      ⟨1, [⟨4, Suit.hearts⟩], [], [], false⟩],
    deck := [],
    discard := [⟨2, Suit.hearts⟩, ⟨2, Suit.diamonds⟩, ⟨2, Suit.clubs⟩, ⟨2, Suit.spades⟩],
    pile := [], currentPlayer := 0, direction := 1, skipCount := 0 }

/-- C6 counterexample: a successful `playTurn` whose cards all have rank 2
after which the pile is empty and the played 2s sit in the discard — the
four-of-a-kind burn fires on four 2s, refuting "the played 2s remain on the
pile" as universally stated. -/
theorem C6_counterexample :
    fourTwosGame.playTurn 0
        [⟨2, Suit.hearts⟩, ⟨2, Suit.diamonds⟩, ⟨2, Suit.clubs⟩, ⟨2, Suit.spades⟩] 10
      = .ok (some (fourTwosGame', .played true 0 true))
      ∧ fourTwosGame'.pile = [] ∧ fourTwosGame'.discard ≠ [] := by
  refine ⟨rfl, rfl, by decide⟩

/-! ### Removal semantics -/

theorem filter_erase_cons {l cs : List Card} {c : Card} (hl : l.Nodup) :
    (eraseCard l c).filter (fun x => decide (x ∉ cs))
      = l.filter (fun x => decide (x ∉ c :: cs)) := by
  rw [eraseCard_eq_filter_of_nodup hl, List.filter_filter]
  apply List.filter_congr
  intro x hx
  by_cases hxc : x = c <;> simp [hxc]

theorem filter_notmem_cons {l cs : List Card} {c : Card} (hc : c ∉ l) :
    l.filter (fun x => decide (x ∉ cs)) = l.filter (fun x => decide (x ∉ c :: cs)) := by
  apply List.filter_congr
  intro x hx
  have hxc : x ≠ c := fun h => hc (h ▸ hx)
  simp [hxc]

/-- C7 (amended): for a player whose zones hold pairwise distinct card
instances (always true in a constructed game, where the 52 deck cards are
distinct), `removeCardsFromPlayer` removes exactly the submitted instances
by identity — each zone keeps precisely its cards that are not in the
submission, so other cards of the same rank are untouched — searching hand
first, then faceUp, then faceDown.  What the claim adds beyond this —
that faceUp is only ever played from once the hand is empty — is not
enforced by `playTurn` and is refuted by the counterexample. -/
theorem C7_removal_by_identity (player : Player) (cards : List Card)
    (hnd : (player.hand ++ player.faceUp ++ player.faceDown).Nodup) :
    removeCardsFromPlayer player cards
      = { player with
          hand := player.hand.filter (fun c => decide (c ∉ cards)),
          faceUp := player.faceUp.filter (fun c => decide (c ∉ cards)),
          faceDown := player.faceDown.filter (fun c => decide (c ∉ cards)) } := by
  induction cards generalizing player with
  | nil =>
    have hf : ∀ l : List Card, l.filter (fun c => decide (c ∉ ([] : List Card))) = l :=
      fun l => List.filter_eq_self.mpr (fun a _ => by simp)
    show player = _
    rw [hf, hf, hf]
  | cons c cs ih =>
    obtain ⟨h12, hd, hdisj13⟩ := List.nodup_append.mp hnd
    obtain ⟨hh, hu, hdisj12⟩ := List.nodup_append.mp h12
    have hstep : removeCardsFromPlayer player (c :: cs)
        = removeCardsFromPlayer (removeCardFromPlayer player c) cs := rfl
    rw [hstep]
    by_cases h1 : c ∈ player.hand
    · have hcfu : c ∉ player.faceUp := fun hmem => hdisj12 h1 hmem
      have hcfd : c ∉ player.faceDown := fun hmem =>
        hdisj13 (List.mem_append.mpr (Or.inl h1)) hmem
      have hrm : removeCardFromPlayer player c
          = { player with hand := eraseCard player.hand c } := by
        unfold removeCardFromPlayer
        rw [if_pos h1]
      have hnd' : ((eraseCard player.hand c) ++ player.faceUp ++ player.faceDown).Nodup :=
        List.Nodup.sublist
          (((eraseCard_sublist _ _).append (List.Sublist.refl _)).append
            (List.Sublist.refl _)) hnd
      rw [hrm, ih _ hnd']
      rw [show ({ player with hand := eraseCard player.hand c } : Player).hand
        = eraseCard player.hand c from rfl]
      rw [filter_erase_cons hh, filter_notmem_cons hcfu, filter_notmem_cons hcfd]
    · by_cases h2 : c ∈ player.faceUp
      · have hcfd : c ∉ player.faceDown := fun hmem =>
          hdisj13 (List.mem_append.mpr (Or.inr h2)) hmem
        have hrm : removeCardFromPlayer player c
            = { player with faceUp := eraseCard player.faceUp c } := by
          unfold removeCardFromPlayer
          rw [if_neg h1, if_pos h2]
        have hnd' : (player.hand ++ (eraseCard player.faceUp c) ++ player.faceDown).Nodup :=
          List.Nodup.sublist
            (((List.Sublist.refl _).append (eraseCard_sublist _ _)).append
              (List.Sublist.refl _)) hnd
        rw [hrm, ih _ hnd']
        rw [show ({ player with faceUp := eraseCard player.faceUp c } : Player).faceUp
          = eraseCard player.faceUp c from rfl]
        rw [filter_erase_cons hu, filter_notmem_cons h1, filter_notmem_cons hcfd]
      · by_cases h3 : c ∈ player.faceDown
        · have hrm : removeCardFromPlayer player c
              = { player with faceDown := eraseCard player.faceDown c } := by
            unfold removeCardFromPlayer
            rw [if_neg h1, if_neg h2, if_pos h3]
          have hnd' : (player.hand ++ player.faceUp
              ++ (eraseCard player.faceDown c)).Nodup :=
            List.Nodup.sublist
              ((List.Sublist.refl (player.hand ++ player.faceUp)).append
                (eraseCard_sublist _ _)) hnd
          rw [hrm, ih _ hnd']
          rw [show ({ player with faceDown := eraseCard player.faceDown c } : Player).faceDown
            = eraseCard player.faceDown c from rfl]
          rw [filter_erase_cons hd, filter_notmem_cons h1, filter_notmem_cons h2]
        · have hrm : removeCardFromPlayer player c = player :=
            removeCardFromPlayer_of_not_mem (by
              simp only [Player.cards, List.append_assoc, List.mem_append]
              tauto)
          rw [hrm, ih _ hnd]
          rw [filter_notmem_cons h1, filter_notmem_cons h2, filter_notmem_cons h3]

/-- A state whose player 0 holds a 3 in hand and a 6 face up. -/
def faceUpPlayGame : Game :=
  { players := [⟨0, [⟨3, Suit.hearts⟩], [⟨6, Suit.diamonds⟩], [], false⟩,
      ⟨1, [⟨4, Suit.hearts⟩], [], [], false⟩],
    deck := [], discard := [], pile := [], currentPlayer := 0, direction := 1,
    skipCount := 0 }

/-- The state after player 0 plays the face-up 6 while their hand is
non-empty: `playTurn` accepts it and removes it from faceUp. -/
def faceUpPlayGame' : Game :=
  { players := [⟨0, [⟨3, Suit.hearts⟩], [], [], false⟩,
      ⟨1, [⟨4, Suit.hearts⟩], [], [], false⟩],
    deck := [], discard := [], pile := [⟨6, Suit.diamonds⟩], currentPlayer := 1,
    direction := 1, skipCount := 0 }

/-- C7 counterexample: a validated submission naming a faceUp card succeeds
while the hand is non-empty — the card leaves faceUp with the hand
untouched, so zone consumption in strict hand, faceUp, faceDown priority is
not enforced by `playTurn`. -/
theorem C7_counterexample :
    faceUpPlayGame.playTurn 0 [⟨6, Suit.diamonds⟩] 10
        = .ok (some (faceUpPlayGame', .played false 0 false))
      ∧ (faceUpPlayGame.players.getD 0 default).hand ≠ []
      ∧ (faceUpPlayGame'.players.getD 0 default).faceUp = [] := by
  refine ⟨rfl, by decide, rfl⟩

/-- C7 witness: the removal characterization applied to a player holding
two cards of the same rank in different zones — removing by identity takes
exactly the submitted instance and leaves the equal-ranked card alone. -/
theorem C7_witness :
    removeCardsFromPlayer ⟨0, [⟨6, Suit.clubs⟩], [⟨6, Suit.diamonds⟩], [], false⟩
        [⟨6, Suit.diamonds⟩]
      = { id := 0,
          hand := List.filter (fun c => decide (c ∉ [(⟨6, Suit.diamonds⟩ : Card)]))
            [⟨6, Suit.clubs⟩],
          faceUp := List.filter (fun c => decide (c ∉ [(⟨6, Suit.diamonds⟩ : Card)]))
            [⟨6, Suit.diamonds⟩],
          faceDown := List.filter (fun c => decide (c ∉ [(⟨6, Suit.diamonds⟩ : Card)]))
            [],
          finished := false } :=
  C7_removal_by_identity ⟨0, [⟨6, Suit.clubs⟩], [⟨6, Suit.diamonds⟩], [], false⟩
    [⟨6, Suit.diamonds⟩] (by decide)

/-! ### Construction -/

/-- C8 (amended): the constructor takes a player COUNT: with a count below
two it raises the construction error, and with a count `n ≥ 2` it succeeds
and produces exactly `n` players in order (ids 0, 1, ..., n-1).  What the
claim adds — construction from an ordered list of player identities — is
not supported by the source: under JavaScript semantics an array argument
defeats both the `numPlayers < 2` guard and the creation loop bound (NaN
comparisons), producing a zero-player game with no error, as the
counterexample shows. -/
theorem C8_construction (n : Nat) (shuffled : List Card) :
    (n < 2 → mkGame (.num n) shuffled = .error .atLeastTwoPlayers) ∧
    (2 ≤ n → ∃ g, mkGame (.num n) shuffled = .ok g ∧ g.players.length = n
      ∧ g.players.map Player.id = List.range n) := by
  constructor
  · intro hn
    unfold mkGame
    rw [if_pos (by simp [ctorRejects, hn])]
  · intro hn
    refine ⟨Game.initDeal
      { players := mkPlayers (.num n), deck := shuffled, discard := [], pile := [],
        currentPlayer := 0, direction := 1, skipCount := 0 }, ?_, ?_, ?_⟩
    · unfold mkGame
      rw [if_neg (by simp only [ctorRejects, decide_eq_true_eq]; omega)]
    · have hids := initDeal_ids
        { players := mkPlayers (.num n), deck := shuffled, discard := [], pile := [],
          currentPlayer := 0, direction := 1, skipCount := 0 }
      have hlen := congrArg List.length hids
      simp only [List.length_map] at hlen
      rw [hlen]
      simp [mkPlayers]
    · rw [initDeal_ids]
      show (mkPlayers (.num n)).map Player.id = _
      simp [mkPlayers, List.map_map]
      exact List.map_id _

/-- The zero-player game the constructor produces from a list argument. -/
def emptyPlayersGame : Game :=
  { players := [], deck := standardDeckCards, discard := [], pile := [],
    currentPlayer := 0, direction := 1, skipCount := 0 }

/-- C8 counterexample: constructing with an ordered list of two player
identities raises no error but produces a game with ZERO players (the
array argument makes the constructor's comparisons NaN comparisons), not
two players in the given order. -/
theorem C8_counterexample :
    mkGame (.idList ["A", "B"]) standardDeckCards = .ok emptyPlayersGame
      ∧ emptyPlayersGame.players.length = 0 := ⟨rfl, rfl⟩

/-- C8 witness: one rejected count and one successful count. -/
theorem C8_witness :
    mkGame (.num 1) standardDeckCards = .error .atLeastTwoPlayers ∧
    ∃ g, mkGame (.num 2) standardDeckCards = .ok g ∧ g.players.length = 2
      ∧ g.players.map Player.id = List.range 2 :=
  ⟨(C8_construction 1 standardDeckCards).1 (by decide),
    (C8_construction 2 standardDeckCards).2 (by decide)⟩
